import Mathlib

/-!
# ribbon: model construction and mesh composition (`model.go`)

A shallow embedding of `model.go` and theorems about it.

Conventions of the embedding:

* Go slices of pointers (`[]*Atom`, `[]*Residue`, `[]*Chain`, the `Triangles` of a
  `*fauxgl.Mesh`) are lists of values: no entry is nil and no two entries alias.
  A `*Atom` that may be nil (a map lookup) is an `Option Atom`.
* `float64` is `F64`: a finite value is an exact rational, and the non-finite values
  `+Inf`, `-Inf` and `NaN` are explicit.  Rounding, overflow and the sign of zero are
  not represented.
* What `model.go` calls but does not define is a field of `Env`: the operations of
  the `fauxgl` library on triangles, matrices and colours, `math.Sqrt`, and the
  collaborators of this package (`GetElement`, `ResiduesForAtoms`,
  `ChainsForResidues`, `Chain.Mesh`, `Viridis.Color`, `makeCamera`).  The general
  theorems hold for every `Env`; `demoEnv` is one concrete `Env`, on which the
  definitions are evaluated.
* The methods of `fauxgl.Vector` and `fauxgl.Mesh` that `model.go` calls are
  transcribed from the `fauxgl` library.
* A Go panic is `Except.error`: `Camera`, the one function of `model.go` that
  dereferences a pointer it has not tested, returns an `Except`.
* Where the sharing of triangles between meshes matters (`makeCylinder` and the
  `unitCylinder` template), a mesh is a list of addresses into a store of triangles
  and `makeCylinderInStore` is `makeCylinder` on that store.
-/

namespace Ribbon

/-! ## float64 -/

/-- Go `float64`: a finite value (an exact rational), an infinity with its sign
(`inf true` is `-Inf`), or NaN. -/
inductive F64 where
  | fin (q : ℚ)
  | inf (negative : Bool)
  | nan
deriving DecidableEq

namespace F64

/-- Conversion `float64(i)` of a Go `int`. -/
def ofInt (i : Int) : F64 := fin i

/-- The product of a finite value and an infinity: NaN for zero, otherwise the
infinity with the product's sign. -/
def timesInf (q : ℚ) (negative : Bool) : F64 :=
  if q = 0 then nan else inf (xor (decide (q < 0)) negative)

/-- Unary minus. -/
def neg : F64 → F64
  | fin a => fin (-a)
  | inf s => inf (!s)
  | nan => nan

/-- Go `a + b` on float64. -/
def add : F64 → F64 → F64
  | fin a, fin b => fin (a + b)
  | fin _, inf s => inf s
  | inf s, fin _ => inf s
  | inf s, inf t => if s = t then inf s else nan
  | nan, _ => nan
  | _, nan => nan

/-- Go `a - b` on float64. -/
def sub (a b : F64) : F64 := add a (neg b)

/-- Go `a * b` on float64. -/
def mul : F64 → F64 → F64
  | fin a, fin b => fin (a * b)
  | fin a, inf s => timesInf a s
  | inf s, fin b => timesInf b s
  | inf s, inf t => inf (xor s t)
  | nan, _ => nan
  | _, nan => nan

/-- Go `a / b` on float64: a finite non-zero value over zero is an infinity, zero
over zero is NaN; no division faults. -/
def div : F64 → F64 → F64
  | fin a, fin b =>
      if b = 0 then (if a = 0 then nan else inf (decide (a < 0))) else fin (a / b)
  | fin _, inf _ => fin 0
  | inf s, fin b => inf (xor s (decide (b < 0)))
  | inf _, inf _ => nan
  | nan, _ => nan
  | _, nan => nan

/-- Go `math.Sqrt`, given its values `rsqrt` on the finite non-negative arguments. -/
def sqrt (rsqrt : ℚ → ℚ) : F64 → F64
  | fin a => if a < 0 then nan else fin (rsqrt a)
  | inf false => inf false
  | inf true => nan
  | nan => nan

end F64

/-! ## fauxgl.Vector -/

/-- The type `fauxgl.Vector`. -/
structure Vector where
  X : F64
  Y : F64
  Z : F64
deriving DecidableEq

namespace Vector

/-- The constructor `fauxgl.V`. -/
def V (x y z : F64) : Vector := ⟨x, y, z⟩

/-- A vector with finite coordinates. -/
def ofRat (x y z : ℚ) : Vector := ⟨.fin x, .fin y, .fin z⟩

/-- `a.Add(b)`. -/
def Add (a b : Vector) : Vector := ⟨a.X.add b.X, a.Y.add b.Y, a.Z.add b.Z⟩

/-- `a.Sub(b)`. -/
def Sub (a b : Vector) : Vector := ⟨a.X.sub b.X, a.Y.sub b.Y, a.Z.sub b.Z⟩

/-- `a.MulScalar(b)`. -/
def MulScalar (a : Vector) (b : F64) : Vector := ⟨a.X.mul b, a.Y.mul b, a.Z.mul b⟩

/-- The sum of squares `a.X*a.X + a.Y*a.Y + a.Z*a.Z` under the square roots of
`Length` and `Normalize`. -/
def sumSq (a : Vector) : F64 := ((a.X.mul a.X).add (a.Y.mul a.Y)).add (a.Z.mul a.Z)

/-- `a.Length()`. -/
def Length (rsqrt : ℚ → ℚ) (a : Vector) : F64 := F64.sqrt rsqrt a.sumSq

/-- `a.Distance(b)`, the length of `a.Sub(b)`. -/
def Distance (rsqrt : ℚ → ℚ) (a b : Vector) : F64 := Length rsqrt (a.Sub b)

/-- `a.Normalize()`: every coordinate times `1 / math.Sqrt(sum of squares)`. -/
def Normalize (rsqrt : ℚ → ℚ) (a : Vector) : Vector :=
  let r := F64.div (.fin 1) (F64.sqrt rsqrt a.sumSq)
  ⟨a.X.mul r, a.Y.mul r, a.Z.mul r⟩

/-- `a.Lerp(b, t)`, that is `a.Add(b.Sub(a).MulScalar(t))`. -/
def Lerp (a b : Vector) (t : F64) : Vector := a.Add ((b.Sub a).MulScalar t)

/-- `a.LerpDistance(b, d)`, that is `a.Add(b.Sub(a).Normalize().MulScalar(d))`. -/
def LerpDistance (rsqrt : ℚ → ℚ) (a b : Vector) (d : F64) : Vector :=
  a.Add (((b.Sub a).Normalize rsqrt).MulScalar d)

end Vector

/-! ## Data model -/

/-- Modelled from the spec: the declaration of `Atom` is not among the sources.
An atom has a serial id, a name, a residue name, a position and an element symbol
that `GetElement` resolves to an element descriptor. -/
structure Atom where
  Serial : Int
  Name : String
  ResName : String
  Position : Vector
  Element : String
deriving DecidableEq

/-- Modelled from the spec: the declaration of `Element` is not among the sources.
An element descriptor has a radius, a van der Waals radius and a display colour
(a hexadecimal colour code). -/
structure Element where
  Radius : F64
  VanDerWaalsRadius : F64
  HexColor : Int
deriving DecidableEq

/-- Modelled from the spec: the declaration of `Connection` is not among the sources.
A connection is a pair of atom serial ids. -/
structure Connection where
  Serial1 : Int
  Serial2 : Int
deriving DecidableEq

/-- Modelled from the spec: the secondary-structure label of a residue, one of
none, helix and strand (`SecondaryHelix` and `SecondaryStrand` in `model.go`). -/
inductive Secondary where
  | None
  | Helix
  | Strand
deriving DecidableEq

/-- Modelled from the spec: the declaration of `Residue` is not among the sources.
A residue maps atom names to atoms (a Go map: a missing name gives nil), carries
its chain identity and sequence position, and has a mutable label. -/
structure Residue where
  ChainID : String
  ResSeq : Int
  Atoms : String → Option Atom
  Secondary : Secondary

/-- Modelled from the spec: the declaration of `Helix` is not among the sources.
A range annotation is a capability answering whether a residue falls inside it. -/
structure Helix where
  Contains : Residue → Bool

/-- Modelled from the spec: the declaration of `Strand` is not among the sources.
A range annotation is a capability answering whether a residue falls inside it. -/
structure Strand where
  Contains : Residue → Bool

/-- Modelled from the spec: the declaration of `Chain` is not among the sources.
A chain is an ordered sequence of residues. -/
structure Chain where
  Residues : List Residue

/-- What `model.go` uses without defining it. -/
structure Env where
  /-- The type `fauxgl.Triangle`. -/
  Triangle : Type
  /-- The type `fauxgl.Matrix`. -/
  Matrix : Type
  /-- The type `fauxgl.Color`. -/
  Color : Type
  /-- The colour type returned by `Viridis.Color`. -/
  RGBA : Type
  /-- The camera description returned by `makeCamera`. -/
  CameraPose : Type
  /-- The values of `math.Sqrt` on finite non-negative arguments. -/
  Sqrt : ℚ → ℚ
  /-- The matrix `fauxgl.Scale(s)`. -/
  Scale : Vector → Matrix
  /-- The matrix `m.Translate(p)`. -/
  Translate : Matrix → Vector → Matrix
  /-- The matrix `fauxgl.Orient(position, size, up, rotation)`. -/
  Orient : Vector → Vector → Vector → F64 → Matrix
  /-- The point `m.MulPosition(p)`. -/
  MulPosition : Matrix → Vector → Vector
  /-- A triangle after `t.Transform(m)`. -/
  TransformTriangle : Matrix → Triangle → Triangle
  /-- A triangle after `t.SetColor(c)`. -/
  SetColorTriangle : Color → Triangle → Triangle
  /-- The colour `fauxgl.HexColor(x)`. -/
  HexColor : Int → Color
  /-- The colour `fauxgl.MakeColor(c)`. -/
  MakeColor : RGBA → Color
  /-- The triangles of `unitSphere`, as `init` leaves them. -/
  unitSphere : List Triangle
  /-- The triangles of `unitCylinder`, as `init` leaves them. -/
  unitCylinder : List Triangle
  /-- The element descriptor `a.GetElement()`. -/
  GetElement : Atom → Element
  /-- The residues `ResiduesForAtoms(atoms)`. -/
  ResiduesForAtoms : List Atom → List Residue
  /-- The chains `ChainsForResidues(residues)`. -/
  ChainsForResidues : List Residue → List Chain
  /-- The triangles of the surface `c.Mesh()` of a chain. -/
  ChainMesh : Chain → List Triangle
  /-- The colour `Viridis.Color(p)`. -/
  ViridisColor : F64 → RGBA
  /-- The camera `makeCamera(points)`. -/
  makeCamera : List Vector → CameraPose

/-- The type `fauxgl.Mesh`, reduced to its triangles. -/
structure Mesh (E : Env) where
  Triangles : List E.Triangle

namespace Mesh

variable {E : Env}

/-- `fauxgl.NewEmptyMesh()`. -/
def NewEmptyMesh : Mesh E := ⟨[]⟩

/-- `a.Add(b)`: the triangles of `b` are appended to those of `a`. -/
def Add (a b : Mesh E) : Mesh E := ⟨a.Triangles ++ b.Triangles⟩

/-- `m.Copy()`: a mesh of copies of the triangles. -/
def Copy (m : Mesh E) : Mesh E := ⟨m.Triangles⟩

/-- `m.Transform(matrix)`: every triangle is transformed. -/
def Transform (m : Mesh E) (matrix : E.Matrix) : Mesh E :=
  ⟨m.Triangles.map (E.TransformTriangle matrix)⟩

/-- `m.SetColor(c)`: every triangle is coloured. -/
def SetColor (m : Mesh E) (c : E.Color) : Mesh E :=
  ⟨m.Triangles.map (E.SetColorTriangle c)⟩

end Mesh

/-- The struct `Model`. -/
structure Model (E : Env) where
  Atoms : List Atom
  HetAtoms : List Atom
  Connections : List Connection
  Helixes : List Helix
  Strands : List Strand
  Residues : List Residue
  Chains : List Chain
  BioMatrixes : List E.Matrix
  SymMatrixes : List E.Matrix

/-! ## NewModel -/

/-- The body of the loop over `helixes` in `NewModel`. -/
def helixStep (r : Residue) (h : Helix) : Residue :=
  if h.Contains r then { r with Secondary := Secondary.Helix } else r

/-- The body of the loop over `strands` in `NewModel`. -/
def strandStep (r : Residue) (s : Strand) : Residue :=
  if s.Contains r then { r with Secondary := Secondary.Strand } else r

/-- The body of the loop over `residues` in `NewModel`: the helix loop, then the
strand loop, on one residue. -/
def labelResidue (helixes : List Helix) (strands : List Strand) (r : Residue) : Residue :=
  strands.foldl strandStep (helixes.foldl helixStep r)

/-- The function `NewModel`. -/
def NewModel (E : Env) (atoms : List Atom) (helixes : List Helix) (strands : List Strand) :
    Model E :=
  let residues := (E.ResiduesForAtoms atoms).map (labelResidue helixes strands)
  let chains := E.ChainsForResidues residues
  { Atoms := atoms, HetAtoms := [], Connections := [], Helixes := helixes,
    Strands := strands, Residues := residues, Chains := chains,
    BioMatrixes := [], SymMatrixes := [] }

/-! ## Camera -/

/-- A Go run-time panic.  The only one the code of `model.go` can raise is the
dereference of a nil pointer; its value names no atom and no residue. -/
inductive Fault where
  | nilDereference
deriving DecidableEq

/-- One in-place write `l[i] = f(l[i])` of a Go loop over a slice of pointers or
values: the element at index `i` is replaced by its image, the others are kept. -/
def updateAt {α : Type} (f : α → α) (l : List α) (i : Nat) : List α :=
  match l[i]? with
  | some x => l.set i (f x)
  | none => l

/-- The first loop of `Camera`, from the points appended so far:
`points = append(points, r.Atoms["CA"].Position)` for every residue.  For a residue
without an atom named `CA` the map lookup gives nil and `.Position` dereferences
it: the call panics. -/
def collectCA : List Vector → List Residue → Except Fault (List Vector)
  | points, [] => Except.ok points
  | points, r :: rs =>
    match r.Atoms "CA" with
    | none => Except.error Fault.nilDereference
    | some a => collectCA (points ++ [a.Position]) rs

/-- The second loop of `Camera`: `points[i] = matrix.MulPosition(point)` for every
index of the local slice `points`. -/
def transformPoints (E : Env) (matrix : E.Matrix) (points : List Vector) : List Vector :=
  (List.range points.length).foldl (updateAt (E.MulPosition matrix)) points

/-- The method `Model.Camera`.  Its only result is the camera of `makeCamera`; a
panic is `Except.error`. -/
def Camera (E : Env) (model : Model E) (matrix : E.Matrix) : Except Fault E.CameraPose :=
  match collectCA [] model.Residues with
  | Except.error fault => Except.error fault
  | Except.ok points => Except.ok (E.makeCamera (transformPoints E matrix points))

/-! ## Spheres, cylinders and bonds -/

/-- The five lines shared by the atom loops of `HetMesh` and `SpaceFillingMesh`:
a copy of `unitSphere`, scaled by `(r, r, r)`, translated to the atom's position and
coloured with the element's colour. -/
def atomSphere (E : Env) (r : F64) (a : Atom) (e : Element) : Mesh E :=
  let s := Vector.V r r r
  let m : Mesh E := (Mesh.mk E.unitSphere).Copy
  let m := m.Transform (E.Translate (E.Scale s) a.Position)
  m.SetColor (E.HexColor e.HexColor)

/-- The function `makeCylinder`. -/
def makeCylinder (E : Env) (p0 p1 : Vector) (r : F64) : Mesh E :=
  let p := (p0.Add p1).MulScalar (.fin (1 / 2))
  let h := (Vector.Distance E.Sqrt p0 p1).mul (.fin 2)
  let up := (p1.Sub p0).Normalize E.Sqrt
  let mesh : Mesh E := (Mesh.mk E.unitCylinder).Copy
  mesh.Transform (E.Orient p (Vector.V r r h) up (.fin 0))

/-- The attachment point of atom `a` on its bond towards atom `b`, as
`makeConnection` computes `p1` (and, with the atoms exchanged, `p2`):
`a.Position.LerpDistance(b.Position, e.Radius*0.75-0.1)`. -/
def attachPoint (E : Env) (a b : Atom) : Vector :=
  let e := E.GetElement a
  a.Position.LerpDistance E.Sqrt b.Position ((e.Radius.mul (.fin (3 / 4))).sub (.fin (1 / 10)))

/-- The point `mid` of `makeConnection`: `p1.Lerp(p2, 0.5)`, computed as the code
computes it, from the first attachment point towards the second.  With finite values
as exact rationals, rearrangements of this computation (the same points taken in
the other order, or the midpoint of the positions for equal radii) give the same
rational although float64 may round them apart; the theorems state `mid` through
the code's own sequence of operations only. -/
def connectionMid (E : Env) (a1 a2 : Atom) : Vector :=
  (attachPoint E a1 a2).Lerp (attachPoint E a2 a1) (.fin (1 / 2))

/-- The function `makeConnection`; a nil atom is `none`. -/
def makeConnection (E : Env) (a1 a2 : Option Atom) : Mesh E :=
  let mesh : Mesh E := Mesh.NewEmptyMesh
  match a1, a2 with
  | some a1, some a2 =>
    let e1 := E.GetElement a1
    let e2 := E.GetElement a2
    let p1 := attachPoint E a1 a2
    let p2 := attachPoint E a2 a1
    let mid := connectionMid E a1 a2
    let m := (makeCylinder E p1 mid (.fin (1 / 4))).SetColor (E.HexColor e1.HexColor)
    let mesh := mesh.Add m
    let m := (makeCylinder E mid p2 (.fin (1 / 4))).SetColor (E.HexColor e2.HexColor)
    mesh.Add m
  | _, _ => mesh

/-! ## Meshes of pointers

In `fauxgl` a mesh holds pointers to its triangles, `Copy` allocates a new triangle
for every triangle of the mesh, and `Transform` writes through the pointers.  Here a
store is the list of the triangles allocated so far, a pointer is an index into it,
and a mesh is a list of pointers. -/

/-- `m.Copy()` on a store: every triangle of the mesh is copied to a fresh address;
the result is the new store and the mesh of the fresh addresses. -/
def copyInStore (E : Env) (store : List E.Triangle) (mesh : List Nat) :
    List E.Triangle × List Nat :=
  let copies := mesh.filterMap fun a => store[a]?
  (store ++ copies, (List.range copies.length).map fun i => store.length + i)

/-- `m.Transform(matrix)` on a store: the triangle at every address of the mesh is
transformed in place. -/
def transformInStore (E : Env) (matrix : E.Matrix) (store : List E.Triangle)
    (mesh : List Nat) : List E.Triangle :=
  mesh.foldl (updateAt (E.TransformTriangle matrix)) store

/-- The function `makeCylinder` on a store in which `unitCylinder` is a mesh of
pointers: the result is the new store and the returned mesh. -/
def makeCylinderInStore (E : Env) (store : List E.Triangle) (unitCylinder : List Nat)
    (p0 p1 : Vector) (r : F64) : List E.Triangle × List Nat :=
  let p := (p0.Add p1).MulScalar (.fin (1 / 2))
  let h := (Vector.Distance E.Sqrt p0 p1).mul (.fin 2)
  let up := (p1.Sub p0).Normalize E.Sqrt
  let copied := copyInStore E store unitCylinder
  (transformInStore E (E.Orient p (Vector.V r r h) up (.fin 0)) copied.1 copied.2, copied.2)

/-- The triangles that the pointers of a mesh point to in a store. -/
def derefMesh (E : Env) (store : List E.Triangle) (mesh : List Nat) : List E.Triangle :=
  mesh.filterMap fun a => store[a]?

/-! ## RibbonMesh -/

/-- The parameter `p := float64(i) / float64(len(m.Triangles)-1)` of `RibbonMesh`,
for triangle `i` of a chain surface of `n` triangles. -/
def colorParam (i n : Nat) : F64 :=
  F64.div (F64.ofInt (i : Int)) (F64.ofInt ((n : Int) - 1))

/-- The loop `for i, t := range m.Triangles` of `RibbonMesh`, from index `i` on, in a
surface of `n` triangles: every triangle is coloured
`fauxgl.MakeColor(Viridis.Color(p))`. -/
def colorFrom (E : Env) (n : Nat) : Nat → List E.Triangle → List E.Triangle
  | _, [] => []
  | i, t :: ts =>
    E.SetColorTriangle (E.MakeColor (E.ViridisColor (colorParam i n))) t ::
      colorFrom E n (i + 1) ts

/-- The body of the loop over `model.Chains` in `RibbonMesh`, up to `mesh.Add(m)`:
the surface of the chain with its triangles coloured. -/
def chainRibbon (E : Env) (c : Chain) : Mesh E :=
  let m := E.ChainMesh c
  ⟨colorFrom E m.length 0 m⟩

/-- The method `Model.RibbonMesh`. -/
def RibbonMesh (E : Env) (model : Model E) : Mesh E :=
  model.Chains.foldl (fun mesh c => mesh.Add (chainRibbon E c)) Mesh.NewEmptyMesh

/-! ## HetMesh -/

/-- The state of the first loop of `HetMesh`: the map `atomsBySerial` and the mesh. -/
structure HetState (E : Env) where
  atomsBySerial : Int → Option Atom
  mesh : Mesh E

/-- The body of the loop over `model.HetAtoms` in `HetMesh`. -/
def hetAtomStep (E : Env) (st : HetState E) (a : Atom) : HetState E :=
  if a.ResName = "HOH" then st
  else
    let e := E.GetElement a
    let r := e.Radius.mul (.fin (3 / 4))
    { atomsBySerial := Function.update st.atomsBySerial a.Serial (some a),
      mesh := st.mesh.Add (atomSphere E r a e) }

/-- The state of `HetMesh` after its loop over `model.HetAtoms`. -/
def hetAtoms (E : Env) (model : Model E) : HetState E :=
  model.HetAtoms.foldl (hetAtomStep E) ⟨fun _ => none, Mesh.NewEmptyMesh⟩

/-- The body of the loop over `model.Connections` in `HetMesh`. -/
def hetConnectionStep (E : Env) (atomsBySerial : Int → Option Atom) (mesh : Mesh E)
    (c : Connection) : Mesh E :=
  let a1 := atomsBySerial c.Serial1
  let a2 := atomsBySerial c.Serial2
  mesh.Add (makeConnection E a1 a2)

/-- The method `Model.HetMesh`. -/
def HetMesh (E : Env) (model : Model E) : Mesh E :=
  let st := hetAtoms E model
  model.Connections.foldl (hetConnectionStep E st.atomsBySerial) st.mesh

/-! ## SpaceFillingMesh and Mesh -/

/-- The body of the loop over `model.Atoms` in `SpaceFillingMesh`. -/
def spaceFillingStep (E : Env) (mesh : Mesh E) (a : Atom) : Mesh E :=
  let e := E.GetElement a
  if a.Name ≠ "CA" then mesh
  else
    let r := e.VanDerWaalsRadius
    mesh.Add (atomSphere E r a e)

/-- The method `Model.SpaceFillingMesh`. -/
def SpaceFillingMesh (E : Env) (model : Model E) : Mesh E :=
  model.Atoms.foldl (spaceFillingStep E) Mesh.NewEmptyMesh

/-- The method `Model.Mesh`. -/
def Model.Mesh (E : Env) (model : Model E) : Ribbon.Mesh E :=
  let mesh : Ribbon.Mesh E := Ribbon.Mesh.NewEmptyMesh
  let mesh := mesh.Add (RibbonMesh E model)
  mesh.Add (HetMesh E model)

/-! ## Auxiliary definitions of the statements -/

/-- The label a residue should get from the ranges that contain it: strand before
helix before none. -/
def expectedLabel (helixes : List Helix) (strands : List Strand) (r : Residue) : Secondary :=
  if strands.any (fun s => s.Contains r) then Secondary.Strand
  else if helixes.any (fun h => h.Contains r) then Secondary.Helix
  else Secondary.None

/-- Whether an atom is a heteroatom that `HetMesh` does not skip: its residue name
is not `HOH`. -/
def nonWater (a : Atom) : Bool := decide (a.ResName ≠ "HOH")

/-- The last non-water atom of a list with a given serial, if there is one. -/
def lastNonWater (atoms : List Atom) (serial : Int) : Option Atom :=
  atoms.reverse.find? (fun a => nonWater a && decide (a.Serial = serial))

/-- The sphere that `HetMesh` places for a heteroatom: radius `0.75` times the
element's radius. -/
def hetSphere (E : Env) (a : Atom) : Mesh E :=
  atomSphere E ((E.GetElement a).Radius.mul (.fin (3 / 4))) a (E.GetElement a)

/-- The bond that `HetMesh` builds for a connection over a list of heteroatoms. -/
def hetBond (E : Env) (atoms : List Atom) (c : Connection) : Mesh E :=
  makeConnection E (lastNonWater atoms c.Serial1) (lastNonWater atoms c.Serial2)

/-- Whether a serial is the serial of some non-water atom of a list. -/
def resolves (atoms : List Atom) (serial : Int) : Bool :=
  atoms.any (fun a => nonWater a && decide (a.Serial = serial))

/-- A copy of `unitCylinder` placed by `fauxgl.Orient(centre, V(r, r, h), up, 0)`:
the last two lines of `makeCylinder`, with its centre, height and axis as
arguments. -/
def orientedCylinder (E : Env) (centre : Vector) (r h : F64) (up : Vector) : Mesh E :=
  ((Mesh.mk E.unitCylinder).Copy).Transform (E.Orient centre (Vector.V r r h) up (.fin 0))

/-- The centre `p` of `makeCylinder(p0, p1, r)`. -/
def cylinderCentre (p0 p1 : Vector) : Vector := (p0.Add p1).MulScalar (.fin (1 / 2))

/-- The height `h` of `makeCylinder(p0, p1, r)`. -/
def cylinderHeight (E : Env) (p0 p1 : Vector) : F64 :=
  (Vector.Distance E.Sqrt p0 p1).mul (.fin 2)

/-- The axis `up` of `makeCylinder(p0, p1, r)`. -/
def cylinderAxis (E : Env) (p0 p1 : Vector) : Vector := (p1.Sub p0).Normalize E.Sqrt

/-- The geometric midpoint of the segment joining two points. -/
def segmentMidpoint (p q : Vector) : Vector := (p.Add q).MulScalar (.fin (1 / 2))

/-- The positions of the atoms named `CA` of a list of residues, in residue order. -/
def caPositions (residues : List Residue) : List Vector :=
  residues.filterMap fun r => (r.Atoms "CA").map fun a => a.Position

/-- Whether an atom is one that `SpaceFillingMesh` does not skip: its name is `CA`. -/
def isCA (a : Atom) : Bool := decide (a.Name = "CA")

/-- The sphere that `SpaceFillingMesh` places for an atom: radius the van der Waals
radius of the element. -/
def vdwSphere (E : Env) (a : Atom) : Mesh E :=
  atomSphere E (E.GetElement a).VanDerWaalsRadius a (E.GetElement a)

/-- The square of the distance of two finite points. -/
def squaredDistance (x0 y0 z0 x1 y1 z1 : ℚ) : ℚ :=
  (x1 - x0) * (x1 - x0) + (y1 - y0) * (y1 - y0) + (z1 - z0) * (z1 - z0)

/-- The distance of two finite points as `math.Sqrt` computes it. -/
def computedDistance (E : Env) (x0 y0 z0 x1 y1 z1 : ℚ) : ℚ :=
  E.Sqrt (squaredDistance x0 y0 z0 x1 y1 z1)

/-- One half of the stick of `makeConnection`: the cylinder of radius 0.25 from `p` to
`q`, in the colour of the element of atom `a`. -/
def bondHalf (E : Env) (p q : Vector) (a : Atom) : Mesh E :=
  (makeCylinder E p q (.fin (1 / 4))).SetColor (E.HexColor (E.GetElement a).HexColor)

/-- One coordinate of an attachment point, in the order of operations of
`LerpDistance`: from `x` towards `x'`, over the computed distance `d`, by
`0.75 r - 0.1`. -/
def attachCoord (d x x' r : ℚ) : ℚ := x + (x' - x) * (1 / d) * (r * (3 / 4) - 1 / 10)

/-- One coordinate of `p.Lerp(q, 0.5)`, in the order of operations of `Lerp`. -/
def halfway (p q : ℚ) : ℚ := p + (q - p) * (1 / 2)

/-! ## A concrete environment

An environment in which matrices, colours and triangles record how they were
built, used to evaluate the definitions on concrete inputs. -/

/-- A matrix, as the expression that built it. -/
inductive SymMatrix where
  | scale (s : Vector)
  | translate (m : SymMatrix) (p : Vector)
  | orient (position size up : Vector) (rotation : F64)
deriving DecidableEq

/-- A colour, as the expression that built it. -/
inductive SymColor where
  | hex (x : Int)
  | ramp (p : F64)
deriving DecidableEq

/-- A triangle: the number of the template triangle it copies, the matrices applied
to it (latest first) and the colour last set on it. -/
structure SymTriangle where
  shape : Nat
  placed : List SymMatrix
  color : Option SymColor
deriving DecidableEq

/-- A square root that is exact on the squares of rationals. -/
def exactSqrt (q : ℚ) : ℚ := (Nat.sqrt q.num.toNat : ℚ) / (Nat.sqrt q.den : ℚ)

/-- One residue per atom, labelled none, in chain `A`, at the atom's serial. -/
def demoResidue (a : Atom) : Residue :=
  { ChainID := "A", ResSeq := a.Serial,
    Atoms := fun name => if name = a.Name then some a else none,
    Secondary := Secondary.None }

/-- The concrete environment: oxygen has radius 2 and is red, every other element
has radius 1 and is grey; the unit sphere has two triangles and the unit cylinder
three; all residues form one chain, whose surface has one triangle per residue. -/
def demoEnv : Env where
  Triangle := SymTriangle
  Matrix := SymMatrix
  Color := SymColor
  RGBA := F64
  CameraPose := List Vector
  Sqrt := exactSqrt
  Scale := SymMatrix.scale
  Translate := SymMatrix.translate
  Orient := SymMatrix.orient
  MulPosition := fun _ p => p
  TransformTriangle := fun m t => { t with placed := m :: t.placed }
  SetColorTriangle := fun c t => { t with color := some c }
  HexColor := SymColor.hex
  MakeColor := SymColor.ramp
  unitSphere := [⟨0, [], none⟩, ⟨1, [], none⟩]
  unitCylinder := [⟨2, [], none⟩, ⟨3, [], none⟩, ⟨4, [], none⟩]
  GetElement := fun a =>
    if a.Element = "O" then ⟨.fin 2, .fin 3, 0xFF0000⟩ else ⟨.fin 1, .fin 2, 0x808080⟩
  ResiduesForAtoms := fun atoms => atoms.map demoResidue
  ChainsForResidues := fun rs => if rs.isEmpty then [] else [⟨rs⟩]
  ChainMesh := fun c => (List.range c.Residues.length).map fun i => ⟨100 + i, [], none⟩
  ViridisColor := fun p => p
  makeCamera := fun points => points

/-- A backbone atom with the given serial, at the origin. -/
def demoCA (serial : Int) : Atom :=
  { Serial := serial, Name := "CA", ResName := "GLY", Position := Vector.ofRat 0 0 0,
    Element := "C" }

/-- A helix over the sequence positions `lo..hi`. -/
def demoHelix (lo hi : Int) : Helix := ⟨fun r => decide (lo ≤ r.ResSeq ∧ r.ResSeq ≤ hi)⟩

/-- A strand over the sequence positions `lo..hi`. -/
def demoStrand (lo hi : Int) : Strand := ⟨fun r => decide (lo ≤ r.ResSeq ∧ r.ResSeq ≤ hi)⟩

/-- Three backbone atoms, at the sequence positions 1, 2 and 3. -/
def demoAtoms : List Atom := [demoCA 1, demoCA 2, demoCA 3]

/-- An oxygen heteroatom of a ligand, serial 10, at the origin. -/
def demoO : Atom :=
  { Serial := 10, Name := "O1", ResName := "LIG", Position := Vector.ofRat 0 0 0,
    Element := "O" }

/-- A carbon heteroatom of a ligand, serial 11, at distance 4 from `demoO`. -/
def demoC : Atom :=
  { Serial := 11, Name := "C1", ResName := "LIG", Position := Vector.ofRat 4 0 0,
    Element := "C" }

/-- A water oxygen, serial 12. -/
def demoWater : Atom :=
  { Serial := 12, Name := "O", ResName := "HOH", Position := Vector.ofRat 9 0 0,
    Element := "O" }

/-- A model holding only heteroatoms and connections. -/
def demoHetModel (hetAtoms : List Atom) (connections : List Connection) : Model demoEnv :=
  { Atoms := [], HetAtoms := hetAtoms, Connections := connections, Helixes := [],
    Strands := [], Residues := [], Chains := [], BioMatrixes := [], SymMatrixes := [] }

/-- A model holding only chains. -/
def demoChainModel (chains : List Chain) : Model demoEnv :=
  { Atoms := [], HetAtoms := [], Connections := [], Helixes := [], Strands := [],
    Residues := [], Chains := chains, BioMatrixes := [], SymMatrixes := [] }

/-- A chain of the residues of `n` backbone atoms; in the concrete environment its
surface has `n` triangles. -/
def demoChain (n : Nat) : Chain :=
  ⟨(List.range n).map fun i => demoResidue (demoCA (i : Int))⟩

/-- A backbone nitrogen with the given serial: the residue made of it alone has no
atom named `CA`. -/
def demoN (serial : Int) : Atom :=
  { Serial := serial, Name := "N", ResName := "GLY", Position := Vector.ofRat 1 2 3,
    Element := "N" }

/-- A model holding only residues. -/
def demoResidueModel (residues : List Residue) : Model demoEnv :=
  { Atoms := [], HetAtoms := [], Connections := [], Helixes := [], Strands := [],
    Residues := residues, Chains := [], BioMatrixes := [], SymMatrixes := [] }

/-! ## Theorems -/

/-- After the helix loop a residue has label helix if some helix contains it, and
its old label otherwise; nothing else changes. -/
theorem foldl_helixStep (helixes : List Helix) (r : Residue) :
    helixes.foldl helixStep r =
      { r with Secondary :=
          if helixes.any (fun h => h.Contains r) then Secondary.Helix else r.Secondary } := by
  induction helixes generalizing r with
  | nil => simp
  | cons h hs ih =>
    rw [List.foldl_cons, ih]
    by_cases hc : h.Contains r = true
    · simp [helixStep, hc]
    · simp [helixStep, hc]

/-- After the strand loop a residue has label strand if some strand contains it, and
its old label otherwise, provided containment does not look at the label. -/
theorem foldl_strandStep (strands : List Strand)
    (hS : ∀ s ∈ strands, ∀ (r : Residue) (l : Secondary),
      s.Contains { r with Secondary := l } = s.Contains r)
    (r : Residue) :
    strands.foldl strandStep r =
      { r with Secondary :=
          if strands.any (fun s => s.Contains r) then Secondary.Strand else r.Secondary } := by
  induction strands generalizing r with
  | nil => simp
  | cons s ss ih =>
    have hS' : ∀ s ∈ ss, ∀ (r : Residue) (l : Secondary),
        s.Contains { r with Secondary := l } = s.Contains r :=
      fun t ht => hS t (List.mem_cons_of_mem _ ht)
    rw [List.foldl_cons, ih hS']
    by_cases hc : s.Contains r = true
    · simp [strandStep, hc]
    · simp [strandStep, hc]

/-- The labelling of one residue by `NewModel`: only the label changes, and it becomes
strand, helix or the old label according to the ranges containing the residue. -/
theorem labelResidue_eq (helixes : List Helix) (strands : List Strand)
    (hS : ∀ s ∈ strands, ∀ (r : Residue) (l : Secondary),
      s.Contains { r with Secondary := l } = s.Contains r)
    (r : Residue) :
    labelResidue helixes strands r =
      { r with Secondary :=
          if strands.any (fun s => s.Contains r) then Secondary.Strand
          else if helixes.any (fun h => h.Contains r) then Secondary.Helix
          else r.Secondary } := by
  unfold labelResidue
  rw [foldl_helixStep, foldl_strandStep strands hS]
  have hany : ∀ l : Secondary,
      strands.any (fun s => s.Contains { r with Secondary := l }) =
        strands.any (fun s => s.Contains r) := by
    intro l
    apply Bool.eq_iff_iff.mpr
    simp only [List.any_eq_true]
    constructor
    · rintro ⟨s, hs, hc⟩
      exact ⟨s, hs, by rw [← hS s hs r l]; exact hc⟩
    · rintro ⟨s, hs, hc⟩
      exact ⟨s, hs, by rw [hS s hs r l]; exact hc⟩
  simp only [hany]

/-- C1. `NewModel` keeps the residues of `ResiduesForAtoms` in number and order, and
a residue that `ResiduesForAtoms` returns with label none ends with label strand if
some strand contains it (whether or not a helix does), otherwise helix if some helix
contains it, otherwise none, with nothing else of the residue changed; its label is
one of none, helix and strand.  Containment by a strand is taken not to depend on the
label of the residue. -/
theorem newModel_secondary (E : Env) (atoms : List Atom) (helixes : List Helix)
    (strands : List Strand)
    (hS : ∀ s ∈ strands, ∀ (r : Residue) (l : Secondary),
      s.Contains { r with Secondary := l } = s.Contains r) :
    (NewModel E atoms helixes strands).Residues.length = (E.ResiduesForAtoms atoms).length ∧
    ∀ (i : Nat) (r r' : Residue),
      (E.ResiduesForAtoms atoms)[i]? = some r →
      (NewModel E atoms helixes strands).Residues[i]? = some r' →
      r.Secondary = Secondary.None →
        r' = { r with Secondary := expectedLabel helixes strands r } ∧
        r'.Secondary =
          (if (∃ s ∈ strands, s.Contains r = true) then Secondary.Strand
           else if (∃ h ∈ helixes, h.Contains r = true) then Secondary.Helix
           else Secondary.None) ∧
        (r'.Secondary = Secondary.None ∨ r'.Secondary = Secondary.Helix ∨
          r'.Secondary = Secondary.Strand) := by
  refine ⟨by simp [NewModel], ?_⟩
  intro i r r' hr hr' hnone
  have hmap : (NewModel E atoms helixes strands).Residues[i]? =
      some (labelResidue helixes strands r) := by
    simp [NewModel, List.getElem?_map, hr]
  rw [hmap] at hr'
  have hlab : r' = labelResidue helixes strands r := (Option.some.inj hr').symm
  subst hlab
  rw [labelResidue_eq helixes strands hS r]
  have hexp : expectedLabel helixes strands r =
      (if strands.any (fun s => s.Contains r) then Secondary.Strand
       else if helixes.any (fun h => h.Contains r) then Secondary.Helix
       else r.Secondary) := by
    simp [expectedLabel, hnone]
  refine ⟨by rw [hexp], ?_, ?_⟩
  · simp only [hnone]
    by_cases h1 : ∃ s ∈ strands, s.Contains r = true
    · have h1' : strands.any (fun s => s.Contains r) = true := List.any_eq_true.mpr h1
      simp [h1, h1']
    · have h1' : ¬ strands.any (fun s => s.Contains r) = true :=
        fun h => h1 (List.any_eq_true.mp h)
      by_cases h2 : ∃ h ∈ helixes, h.Contains r = true
      · have h2' : helixes.any (fun h => h.Contains r) = true := List.any_eq_true.mpr h2
        simp [h1, h1', h2, h2']
      · have h2' : ¬ helixes.any (fun h => h.Contains r) = true :=
          fun h => h2 (List.any_eq_true.mp h)
        simp [h1, h1', h2, h2']
  · simp only [hnone]
    by_cases h1 : strands.any (fun s => s.Contains r) = true
    · simp [h1]
    · by_cases h2 : helixes.any (fun h => h.Contains r) = true
      · simp [h1, h2]
      · simp [h1, h2]

/-- Containment by a range over sequence positions does not look at the label. -/
theorem demoStrand_label_free (lo hi : Int) :
    ∀ s ∈ [demoStrand lo hi], ∀ (r : Residue) (l : Secondary),
      s.Contains { r with Secondary := l } = s.Contains r := by
  intro s hs r l
  rw [List.mem_singleton] at hs
  subst hs
  rfl

/-- On three residues at positions 1, 2, 3 with a helix over 1..2 and a strand over
2..3, `NewModel` labels them helix, strand, strand. -/
theorem newModel_demo_labels :
    (NewModel demoEnv demoAtoms [demoHelix 1 2] [demoStrand 2 3]).Residues.map
        (fun r => r.Secondary) =
      [Secondary.Helix, Secondary.Strand, Secondary.Strand] := by
  decide

/-- Witness of C1: three residues, a helix over positions 1..2 and a strand over 2..3. -/
theorem newModel_secondary_witness :
    (∀ s ∈ [demoStrand 2 3], ∀ (r : Residue) (l : Secondary),
      s.Contains { r with Secondary := l } = s.Contains r) ∧
    ((NewModel demoEnv demoAtoms [demoHelix 1 2] [demoStrand 2 3]).Residues.length =
        (demoEnv.ResiduesForAtoms demoAtoms).length ∧
      ∀ (i : Nat) (r r' : Residue),
        (demoEnv.ResiduesForAtoms demoAtoms)[i]? = some r →
        (NewModel demoEnv demoAtoms [demoHelix 1 2] [demoStrand 2 3]).Residues[i]? = some r' →
        r.Secondary = Secondary.None →
          r' = { r with Secondary := expectedLabel [demoHelix 1 2] [demoStrand 2 3] r } ∧
          r'.Secondary =
            (if (∃ s ∈ [demoStrand 2 3], s.Contains r = true) then Secondary.Strand
             else if (∃ h ∈ [demoHelix 1 2], h.Contains r = true) then Secondary.Helix
             else Secondary.None) ∧
          (r'.Secondary = Secondary.None ∨ r'.Secondary = Secondary.Helix ∨
            r'.Secondary = Secondary.Strand)) :=
  ⟨demoStrand_label_free 2 3,
    newModel_secondary demoEnv demoAtoms [demoHelix 1 2] [demoStrand 2 3]
      (demoStrand_label_free 2 3)⟩

/-! ### The two loops of HetMesh -/

/-- The map built by the atom loop of `HetMesh`: a serial is bound to the last
non-water atom of the list with that serial, and otherwise keeps its old binding. -/
theorem foldl_hetAtomStep_map (E : Env) (atoms : List Atom) (st : HetState E) (serial : Int) :
    (atoms.foldl (hetAtomStep E) st).atomsBySerial serial =
      (lastNonWater atoms serial).or (st.atomsBySerial serial) := by
  induction atoms generalizing st with
  | nil => simp [lastNonWater]
  | cons a as ih =>
    rw [List.foldl_cons, ih]
    have hlast : lastNonWater (a :: as) serial =
        (lastNonWater as serial).or
          (if (nonWater a && decide (a.Serial = serial)) = true then some a else none) := by
      simp only [lastNonWater, List.reverse_cons, List.find?_append]
      congr 1
      by_cases hp : (nonWater a && decide (a.Serial = serial)) = true
      · simp [List.find?, hp]
      · simp [List.find?, hp]
    rw [hlast, Option.or_assoc]
    congr 1
    by_cases hw : a.ResName = "HOH"
    · simp [hetAtomStep, hw, nonWater]
    · by_cases hs : a.Serial = serial
      · simp [hetAtomStep, hw, nonWater, hs]
      · have hs' : serial ≠ a.Serial := fun h => hs h.symm
        simp [hetAtomStep, hw, nonWater, hs, Function.update_noteq hs']

/-- The mesh built by the atom loop of `HetMesh`: one sphere per non-water atom, in
list order, after what the mesh held. -/
theorem foldl_hetAtomStep_mesh (E : Env) (atoms : List Atom) (st : HetState E) :
    (atoms.foldl (hetAtomStep E) st).mesh.Triangles =
      st.mesh.Triangles ++
        (atoms.filter nonWater).flatMap (fun a => (hetSphere E a).Triangles) := by
  induction atoms generalizing st with
  | nil => simp
  | cons a as ih =>
    rw [List.foldl_cons, ih]
    by_cases hw : a.ResName = "HOH"
    · simp [hetAtomStep, hw, nonWater]
    · simp [hetAtomStep, hw, nonWater, hetSphere, Mesh.Add, List.append_assoc]

/-- The mesh built by the connection loop of `HetMesh`: one bond per connection, in
list order, after what the mesh held. -/
theorem foldl_hetConnectionStep (E : Env) (m : Int → Option Atom) (cs : List Connection)
    (mesh : Mesh E) :
    (cs.foldl (hetConnectionStep E m) mesh).Triangles =
      mesh.Triangles ++
        cs.flatMap (fun c => (makeConnection E (m c.Serial1) (m c.Serial2)).Triangles) := by
  induction cs generalizing mesh with
  | nil => simp
  | cons c cs ih =>
    rw [List.foldl_cons, ih]
    simp [hetConnectionStep, Mesh.Add, List.append_assoc]

/-- The map `atomsBySerial` of `HetMesh` after the atom loop. -/
theorem hetAtoms_map (E : Env) (model : Model E) (serial : Int) :
    (hetAtoms E model).atomsBySerial serial = lastNonWater model.HetAtoms serial := by
  unfold hetAtoms
  rw [foldl_hetAtomStep_map]
  simp

/-- The triangles of `HetMesh`: the spheres of the non-water heteroatoms in list
order, then the bonds of the connections in list order. -/
theorem hetMesh_triangles (E : Env) (model : Model E) :
    (HetMesh E model).Triangles =
      (model.HetAtoms.filter nonWater).flatMap (fun a => (hetSphere E a).Triangles) ++
        model.Connections.flatMap (fun c => (hetBond E model.HetAtoms c).Triangles) := by
  unfold HetMesh
  simp only []
  rw [foldl_hetConnectionStep]
  have hm : (hetAtoms E model).mesh.Triangles =
      (model.HetAtoms.filter nonWater).flatMap (fun a => (hetSphere E a).Triangles) := by
    unfold hetAtoms
    rw [foldl_hetAtomStep_mesh]
    simp [Mesh.NewEmptyMesh]
  rw [hm]
  congr 1
  apply List.flatMap_congr
  intro c _
  simp only [hetBond, hetAtoms_map]

/-! ### Lookups in atomsBySerial -/

/-- A serial bound by the atom list is bound to a non-water atom of the list with
that serial. -/
theorem lastNonWater_some (atoms : List Atom) (serial : Int) (a : Atom)
    (h : lastNonWater atoms serial = some a) :
    a ∈ atoms ∧ a.ResName ≠ "HOH" ∧ a.Serial = serial := by
  unfold lastNonWater at h
  have hmem := List.mem_of_find?_eq_some h
  have hp := List.find?_some h
  simp only [nonWater, Bool.and_eq_true, decide_eq_true_eq] at hp
  exact ⟨List.mem_reverse.mp hmem, hp.1, hp.2⟩

/-- A serial is unbound exactly when no non-water atom of the list has it. -/
theorem lastNonWater_none (atoms : List Atom) (serial : Int) :
    lastNonWater atoms serial = none ↔
      ∀ a ∈ atoms, a.ResName ≠ "HOH" → a.Serial ≠ serial := by
  unfold lastNonWater
  rw [List.find?_eq_none]
  simp only [List.mem_reverse, nonWater, Bool.and_eq_true, decide_eq_true_eq, not_and]

/-- A serial is bound exactly when it resolves. -/
theorem lastNonWater_isSome (atoms : List Atom) (serial : Int) :
    (lastNonWater atoms serial).isSome = resolves atoms serial := by
  unfold lastNonWater resolves
  apply Bool.eq_iff_iff.mpr
  rw [List.find?_isSome]
  simp only [List.any_eq_true, List.mem_reverse]

/-- Water atoms bind nothing: dropping them from the list leaves every lookup. -/
theorem lastNonWater_filter (atoms : List Atom) (serial : Int) :
    lastNonWater (atoms.filter nonWater) serial = lastNonWater atoms serial := by
  induction atoms with
  | nil => rfl
  | cons a as ih =>
    by_cases hw : nonWater a = true
    · rw [List.filter_cons_of_pos hw]
      simp only [lastNonWater, List.reverse_cons, List.find?_append] at ih ⊢
      rw [ih]
    · have hw' : nonWater a = false := by simpa using hw
      rw [List.filter_cons_of_neg hw, ih]
      simp only [lastNonWater, List.reverse_cons, List.find?_append]
      simp [List.find?, hw']

/-- A connection with a nil endpoint is an empty mesh. -/
theorem makeConnection_none (E : Env) (a : Option Atom) :
    (makeConnection E none a).Triangles = [] ∧ (makeConnection E a none).Triangles = [] := by
  cases a <;> simp [makeConnection, Mesh.NewEmptyMesh]

/-- C2. `makeConnection` with a nil first or second atom returns a mesh with no
triangles; so a connection of the model one of whose serials is not the serial of any
non-water heteroatom has a nil endpoint in `HetMesh`, its bond has no triangles, and
`HetMesh` returns the same triangles as for the model without that connection. -/
theorem makeConnection_missing_endpoint (E : Env) (model : Model E)
    (cs1 cs2 : List Connection) (c : Connection)
    (hcs : model.Connections = cs1 ++ c :: cs2)
    (hmiss : (∀ a ∈ model.HetAtoms, a.ResName ≠ "HOH" → a.Serial ≠ c.Serial1) ∨
      (∀ a ∈ model.HetAtoms, a.ResName ≠ "HOH" → a.Serial ≠ c.Serial2)) :
    (∀ a : Option Atom,
      (makeConnection E none a).Triangles = [] ∧ (makeConnection E a none).Triangles = []) ∧
    ((hetAtoms E model).atomsBySerial c.Serial1 = none ∨
      (hetAtoms E model).atomsBySerial c.Serial2 = none) ∧
    (makeConnection E ((hetAtoms E model).atomsBySerial c.Serial1)
      ((hetAtoms E model).atomsBySerial c.Serial2)).Triangles = [] ∧
    (HetMesh E model).Triangles =
      (HetMesh E { model with Connections := cs1 ++ cs2 }).Triangles := by
  have hnil : (hetAtoms E model).atomsBySerial c.Serial1 = none ∨
      (hetAtoms E model).atomsBySerial c.Serial2 = none := by
    rcases hmiss with h | h
    · exact Or.inl (by rw [hetAtoms_map]; exact (lastNonWater_none _ _).mpr h)
    · exact Or.inr (by rw [hetAtoms_map]; exact (lastNonWater_none _ _).mpr h)
  have hbond : (makeConnection E ((hetAtoms E model).atomsBySerial c.Serial1)
      ((hetAtoms E model).atomsBySerial c.Serial2)).Triangles = [] := by
    rcases hnil with h | h
    · rw [h]; exact (makeConnection_none E _).1
    · rw [h]; exact (makeConnection_none E _).2
  refine ⟨makeConnection_none E, hnil, hbond, ?_⟩
  rw [hetMesh_triangles, hetMesh_triangles, hcs]
  simp only [hetAtoms_map] at hbond
  simp [List.flatMap_append, hetBond, hbond]

/-- Witness of C2: one oxygen heteroatom with serial 10 and the connection (10, 99);
serial 99 is absent, and the mesh is that of the model without the connection. -/
theorem makeConnection_missing_endpoint_witness :
    (demoHetModel [demoO] [⟨10, 99⟩]).Connections = [] ++ (⟨10, 99⟩ : Connection) :: [] ∧
    (∀ a ∈ (demoHetModel [demoO] [⟨10, 99⟩]).HetAtoms, a.ResName ≠ "HOH" → a.Serial ≠ 99) ∧
    (HetMesh demoEnv (demoHetModel [demoO] [⟨10, 99⟩])).Triangles =
      (HetMesh demoEnv (demoHetModel [demoO] [])).Triangles :=
  ⟨rfl, by decide,
    (makeConnection_missing_endpoint demoEnv (demoHetModel [demoO] [⟨10, 99⟩]) [] []
      ⟨10, 99⟩ rfl (Or.inr (by decide))).2.2.2⟩

/-- C3. `HetMesh` is the spheres of the heteroatoms whose residue name is not `HOH`
followed by the bonds between the endpoints found in `atomsBySerial`; every atom that
gets a sphere and every endpoint found is a heteroatom of the model with residue name
other than `HOH`; a connection one of whose serials belongs to water records only has
no triangles; and the water records can be dropped from the model without changing
the mesh. -/
theorem hetMesh_skips_water (E : Env) (model : Model E) :
    (HetMesh E model).Triangles =
      (model.HetAtoms.filter nonWater).flatMap (fun a => (hetSphere E a).Triangles) ++
        model.Connections.flatMap (fun c =>
          (makeConnection E ((hetAtoms E model).atomsBySerial c.Serial1)
            ((hetAtoms E model).atomsBySerial c.Serial2)).Triangles) ∧
    (∀ a ∈ model.HetAtoms.filter nonWater, a ∈ model.HetAtoms ∧ a.ResName ≠ "HOH") ∧
    (∀ (serial : Int) (a : Atom), (hetAtoms E model).atomsBySerial serial = some a →
      a ∈ model.HetAtoms ∧ a.ResName ≠ "HOH" ∧ a.Serial = serial) ∧
    (∀ c : Connection,
      ((∀ a ∈ model.HetAtoms, a.Serial = c.Serial1 → a.ResName = "HOH") ∨
        (∀ a ∈ model.HetAtoms, a.Serial = c.Serial2 → a.ResName = "HOH")) →
      (makeConnection E ((hetAtoms E model).atomsBySerial c.Serial1)
        ((hetAtoms E model).atomsBySerial c.Serial2)).Triangles = []) ∧
    (HetMesh E model).Triangles =
      (HetMesh E { model with HetAtoms := model.HetAtoms.filter nonWater }).Triangles := by
  refine ⟨?_, ?_, ?_, ?_, ?_⟩
  · rw [hetMesh_triangles]
    simp only [hetBond, hetAtoms_map]
  · intro a ha
    rw [List.mem_filter] at ha
    exact ⟨ha.1, by simpa [nonWater] using ha.2⟩
  · intro serial a h
    rw [hetAtoms_map] at h
    exact lastNonWater_some _ _ _ h
  · intro c hc
    simp only [hetAtoms_map]
    rcases hc with h | h
    · have hn : lastNonWater model.HetAtoms c.Serial1 = none :=
        (lastNonWater_none _ _).mpr (fun a ha hw hs => hw (h a ha hs))
      rw [hn]
      exact (makeConnection_none E _).1
    · have hn : lastNonWater model.HetAtoms c.Serial2 = none :=
        (lastNonWater_none _ _).mpr (fun a ha hw hs => hw (h a ha hs))
      rw [hn]
      exact (makeConnection_none E _).2
  · rw [hetMesh_triangles, hetMesh_triangles]
    simp only [List.filter_filter, Bool.and_self, hetBond, lastNonWater_filter]

/-- Witness of C3: an oxygen (serial 10), a water (serial 12) and the connection
(10, 12): serial 12 belongs to a water record only, and the bond has no triangles. -/
theorem hetMesh_skips_water_witness :
    (∀ a ∈ (demoHetModel [demoO, demoWater] [⟨10, 12⟩]).HetAtoms,
      a.Serial = 12 → a.ResName = "HOH") ∧
    (makeConnection demoEnv
      ((hetAtoms demoEnv (demoHetModel [demoO, demoWater] [⟨10, 12⟩])).atomsBySerial 10)
      ((hetAtoms demoEnv (demoHetModel [demoO, demoWater] [⟨10, 12⟩])).atomsBySerial
        12)).Triangles = [] :=
  ⟨by decide,
    (hetMesh_skips_water demoEnv (demoHetModel [demoO, demoWater] [⟨10, 12⟩])).2.2.2.1
      ⟨10, 12⟩ (Or.inr (by decide))⟩

/-! ### Triangle counts -/

/-- A placed sphere has as many triangles as the unit sphere. -/
theorem length_atomSphere (E : Env) (r : F64) (a : Atom) (e : Element) :
    (atomSphere E r a e).Triangles.length = E.unitSphere.length := by
  simp [atomSphere, Mesh.SetColor, Mesh.Transform, Mesh.Copy]

/-- A cylinder has as many triangles as the unit cylinder. -/
theorem length_makeCylinder (E : Env) (p0 p1 : Vector) (r : F64) :
    (makeCylinder E p0 p1 r).Triangles.length = E.unitCylinder.length := by
  simp [makeCylinder, Mesh.Transform, Mesh.Copy]

/-- The triangles of a bond between two atoms: the cylinder from the first attachment
point to the middle in the first element's colour, then the cylinder from the middle
to the second attachment point in the second element's colour. -/
theorem makeConnection_some (E : Env) (a1 a2 : Atom) :
    (makeConnection E (some a1) (some a2)).Triangles =
      ((makeCylinder E (attachPoint E a1 a2) (connectionMid E a1 a2) (.fin (1 / 4))).SetColor
          (E.HexColor (E.GetElement a1).HexColor)).Triangles ++
        ((makeCylinder E (connectionMid E a1 a2) (attachPoint E a2 a1) (.fin (1 / 4))).SetColor
          (E.HexColor (E.GetElement a2).HexColor)).Triangles := by
  simp [makeConnection, Mesh.Add, Mesh.NewEmptyMesh]

/-- A bond has two cylinders when both endpoints are present and nothing otherwise. -/
theorem length_makeConnection (E : Env) (a1 a2 : Option Atom) :
    (makeConnection E a1 a2).Triangles.length =
      if (a1.isSome && a2.isSome) = true then 2 * E.unitCylinder.length else 0 := by
  cases a1 with
  | none => simp [(makeConnection_none E a2).1]
  | some x =>
    cases a2 with
    | none => simp [(makeConnection_none E (some x)).2]
    | some y =>
      rw [makeConnection_some]
      simp [Mesh.SetColor, length_makeCylinder, two_mul]

/-- The spheres of a list of atoms have one unit sphere of triangles each. -/
theorem length_flatMap_hetSphere (E : Env) (atoms : List Atom) :
    (atoms.flatMap (fun a => (hetSphere E a).Triangles)).length =
      atoms.length * E.unitSphere.length := by
  induction atoms with
  | nil => simp
  | cons a as ih =>
    rw [List.flatMap_cons, List.length_append, ih, hetSphere, length_atomSphere,
      List.length_cons, Nat.succ_mul, Nat.add_comm]

/-- The bonds of a list of connections have two unit cylinders of triangles for each
connection whose two serials resolve. -/
theorem length_flatMap_hetBond (E : Env) (atoms : List Atom) (cs : List Connection) :
    (cs.flatMap (fun c => (hetBond E atoms c).Triangles)).length =
      cs.countP (fun c => resolves atoms c.Serial1 && resolves atoms c.Serial2) *
        (2 * E.unitCylinder.length) := by
  induction cs with
  | nil => simp
  | cons c cs ih =>
    rw [List.flatMap_cons, List.length_append, ih, hetBond, length_makeConnection,
      lastNonWater_isSome, lastNonWater_isSome, List.countP_cons]
    by_cases h : (resolves atoms c.Serial1 && resolves atoms c.Serial2) = true
    · simp only [h, if_true]
      rw [Nat.add_mul, Nat.one_mul, Nat.add_comm]
    · simp only [h, if_false]
      simp

/-- C4. The triangles of `HetMesh` are the spheres of the non-water heteroatoms
followed by the bonds of the connections, the spheres having (number of heteroatoms
with residue name other than `HOH`) times the triangles of the unit sphere and the
bonds (number of connections whose two serials both resolve to non-water
heteroatoms) times twice the triangles of the unit cylinder; the count of the mesh is
the sum.  For two non-water heteroatoms with serials 10 and 11 and the single
connection (10, 11) the mesh is the two spheres, then the cylinder from the attachment
point of atom 10 to the middle in the colour of atom 10's element, then the cylinder
from the middle to the attachment point of atom 11 in the colour of atom 11's
element. -/
theorem hetMesh_count (E : Env) (model : Model E) :
    (HetMesh E model).Triangles.length =
      model.HetAtoms.countP nonWater * E.unitSphere.length +
        model.Connections.countP (fun c =>
          resolves model.HetAtoms c.Serial1 && resolves model.HetAtoms c.Serial2) *
          (2 * E.unitCylinder.length) ∧
    (∃ spheres bonds : List E.Triangle,
      (HetMesh E model).Triangles = spheres ++ bonds ∧
      spheres = (model.HetAtoms.filter nonWater).flatMap (fun a => (hetSphere E a).Triangles) ∧
      bonds = model.Connections.flatMap (fun c => (hetBond E model.HetAtoms c).Triangles) ∧
      spheres.length = model.HetAtoms.countP nonWater * E.unitSphere.length ∧
      bonds.length =
        model.Connections.countP (fun c =>
          resolves model.HetAtoms c.Serial1 && resolves model.HetAtoms c.Serial2) *
          (2 * E.unitCylinder.length)) ∧
    (∀ a b : Atom, model.HetAtoms = [a, b] → model.Connections = [⟨10, 11⟩] →
      a.Serial = 10 → b.Serial = 11 → a.ResName ≠ "HOH" → b.ResName ≠ "HOH" →
      (HetMesh E model).Triangles =
        (hetSphere E a).Triangles ++ (hetSphere E b).Triangles ++
          (((makeCylinder E (attachPoint E a b) (connectionMid E a b) (.fin (1 / 4))).SetColor
              (E.HexColor (E.GetElement a).HexColor)).Triangles ++
            ((makeCylinder E (connectionMid E a b) (attachPoint E b a) (.fin (1 / 4))).SetColor
              (E.HexColor (E.GetElement b).HexColor)).Triangles) ∧
      (HetMesh E model).Triangles.length =
        2 * E.unitSphere.length + 2 * E.unitCylinder.length) := by
  have hs : ((model.HetAtoms.filter nonWater).flatMap
      (fun a => (hetSphere E a).Triangles)).length =
      model.HetAtoms.countP nonWater * E.unitSphere.length := by
    rw [length_flatMap_hetSphere, List.countP_eq_length_filter]
  have hb := length_flatMap_hetBond E model.HetAtoms model.Connections
  refine ⟨?_, ⟨_, _, hetMesh_triangles E model, rfl, rfl, hs, hb⟩, ?_⟩
  · rw [hetMesh_triangles, List.length_append, hs, hb]
  · intro a b hab hc ha hb' hwa hwb
    have h1 : lastNonWater [a, b] 10 = some a := by
      simp [lastNonWater, List.find?, nonWater, ha, hb', hwa, hwb]
    have h2 : lastNonWater [a, b] 11 = some b := by
      simp [lastNonWater, List.find?, nonWater, ha, hb', hwa, hwb]
    have hfa : nonWater a = true := by simpa [nonWater] using hwa
    have hfb : nonWater b = true := by simpa [nonWater] using hwb
    have htri : (HetMesh E model).Triangles =
        (hetSphere E a).Triangles ++ (hetSphere E b).Triangles ++
          (((makeCylinder E (attachPoint E a b) (connectionMid E a b) (.fin (1 / 4))).SetColor
              (E.HexColor (E.GetElement a).HexColor)).Triangles ++
            ((makeCylinder E (connectionMid E a b) (attachPoint E b a) (.fin (1 / 4))).SetColor
              (E.HexColor (E.GetElement b).HexColor)).Triangles) := by
      rw [hetMesh_triangles, hab, hc]
      simp [hfa, hfb, hetBond, h1, h2, makeConnection_some]
    refine ⟨htri, ?_⟩
    rw [htri]
    simp only [List.length_append, hetSphere, length_atomSphere, Mesh.SetColor,
      List.length_map, length_makeCylinder]
    ring

/-- Witness of C4: an oxygen with serial 10, a carbon with serial 11 and the
connection (10, 11) give two spheres and two cylinders. -/
theorem hetMesh_count_witness :
    (demoO.Serial = 10 ∧ demoC.Serial = 11 ∧ demoO.ResName ≠ "HOH" ∧
      demoC.ResName ≠ "HOH") ∧
    (HetMesh demoEnv (demoHetModel [demoO, demoC] [⟨10, 11⟩])).Triangles.length =
      2 * demoEnv.unitSphere.length + 2 * demoEnv.unitCylinder.length :=
  ⟨by decide,
    ((hetMesh_count demoEnv (demoHetModel [demoO, demoC] [⟨10, 11⟩])).2.2 demoO demoC
      rfl rfl rfl rfl (by decide) (by decide)).2⟩

/-- In the concrete environment the mesh of an oxygen (10), a carbon (11), a water
(12) and the connections (10, 11), (10, 12), (10, 99) is: the oxygen's sphere in red,
the carbon's sphere in grey, the first half of the bond (10, 11) in red and the
second half in grey; nothing for the water and nothing for the other connections. -/
theorem hetMesh_demo_colors :
    (HetMesh demoEnv (demoHetModel [demoO, demoWater, demoC]
        [⟨10, 11⟩, ⟨10, 12⟩, ⟨10, 99⟩])).Triangles.map (fun t => (t.shape, t.color)) =
      [(0, some (SymColor.hex 0xFF0000)), (1, some (SymColor.hex 0xFF0000)),
       (0, some (SymColor.hex 0x808080)), (1, some (SymColor.hex 0x808080)),
       (2, some (SymColor.hex 0xFF0000)), (3, some (SymColor.hex 0xFF0000)),
       (4, some (SymColor.hex 0xFF0000)),
       (2, some (SymColor.hex 0x808080)), (3, some (SymColor.hex 0x808080)),
       (4, some (SymColor.hex 0x808080))] := by
  decide

/-! ### RibbonMesh -/

/-- The triangles of `RibbonMesh` from a starting mesh: the coloured surfaces of the
chains, in chain order, after what the mesh held. -/
theorem foldl_chainRibbon (E : Env) (chains : List Chain) (mesh : Mesh E) :
    (chains.foldl (fun mesh c => mesh.Add (chainRibbon E c)) mesh).Triangles =
      mesh.Triangles ++ chains.flatMap (fun c => (chainRibbon E c).Triangles) := by
  induction chains generalizing mesh with
  | nil => simp
  | cons c cs ih =>
    rw [List.foldl_cons, ih]
    simp [Mesh.Add, List.append_assoc]

/-- The triangles of `RibbonMesh`: the coloured surfaces of the chains, in chain
order. -/
theorem ribbonMesh_triangles (E : Env) (model : Model E) :
    (RibbonMesh E model).Triangles =
      model.Chains.flatMap (fun c => (chainRibbon E c).Triangles) := by
  unfold RibbonMesh
  rw [foldl_chainRibbon]
  simp [Mesh.NewEmptyMesh]

/-- The colouring loop keeps the number of triangles. -/
theorem length_colorFrom (E : Env) (n i : Nat) (ts : List E.Triangle) :
    (colorFrom E n i ts).length = ts.length := by
  induction ts generalizing i with
  | nil => rfl
  | cons t ts ih => simp [colorFrom, ih]

/-- The colouring loop started at index `i` gives the triangle at offset `k` the
colour of parameter `colorParam (i + k) n`. -/
theorem getElem?_colorFrom (E : Env) (n i k : Nat) (ts : List E.Triangle) :
    (colorFrom E n i ts)[k]? =
      ts[k]?.map (fun t =>
        E.SetColorTriangle (E.MakeColor (E.ViridisColor (colorParam (i + k) n))) t) := by
  induction ts generalizing i k with
  | nil => simp [colorFrom]
  | cons t ts ih =>
    cases k with
    | zero => simp [colorFrom]
    | succ k =>
      simp only [colorFrom, List.getElem?_cons_succ]
      rw [ih]
      have : i + 1 + k = i + (k + 1) := by omega
      rw [this]

/-- The parameter of triangle `i` of `n ≥ 2` triangles is the finite value
`i / (n - 1)`. -/
theorem colorParam_eq (i n : Nat) (hn : 2 ≤ n) :
    colorParam i n = F64.fin ((i : ℚ) / ((n : ℚ) - 1)) := by
  have hne : ((n : ℚ) - 1) ≠ 0 := by
    have : (2 : ℚ) ≤ (n : ℚ) := by exact_mod_cast hn
    linarith
  simp only [colorParam, F64.ofInt, F64.div]
  push_cast
  rw [if_neg hne]

/-- C5. In `RibbonMesh` the triangle `i` of a chain surface of `n` triangles is
coloured from the parameter `colorParam i n`, which for `n ≥ 2` is the finite value
`i / (n - 1)`: it is 0 for the first triangle, 1 for the last, lies between 0 and 1,
and is strictly increasing in `i`.  The mesh is the chain surfaces one after the
other, each coloured from its own triangles alone. -/
theorem ribbonMesh_gradient (E : Env) :
    (∀ model : Model E, (RibbonMesh E model).Triangles =
      model.Chains.flatMap (fun c => (chainRibbon E c).Triangles)) ∧
    (∀ (c : Chain) (i : Nat) (t : E.Triangle), (E.ChainMesh c)[i]? = some t →
      (chainRibbon E c).Triangles[i]? =
        some (E.SetColorTriangle
          (E.MakeColor (E.ViridisColor (colorParam i (E.ChainMesh c).length))) t)) ∧
    (∀ n i : Nat, 2 ≤ n → i < n →
      colorParam i n = F64.fin ((i : ℚ) / ((n : ℚ) - 1)) ∧
      0 ≤ (i : ℚ) / ((n : ℚ) - 1) ∧ (i : ℚ) / ((n : ℚ) - 1) ≤ 1) ∧
    (∀ n : Nat, 2 ≤ n →
      colorParam 0 n = F64.fin 0 ∧ colorParam (n - 1) n = F64.fin 1) ∧
    (∀ n i j : Nat, 2 ≤ n → i < j → j < n →
      ∃ p q : ℚ, colorParam i n = F64.fin p ∧ colorParam j n = F64.fin q ∧ p < q) := by
  refine ⟨ribbonMesh_triangles E, ?_, ?_, ?_, ?_⟩
  · intro c i t ht
    simp only [chainRibbon]
    rw [getElem?_colorFrom, ht]
    simp
  · intro n i hn hi
    have h2 : (2 : ℚ) ≤ (n : ℚ) := by exact_mod_cast hn
    have hpos : (0 : ℚ) < (n : ℚ) - 1 := by linarith
    have hi' : (i : ℚ) + 1 ≤ (n : ℚ) := by exact_mod_cast hi
    refine ⟨colorParam_eq i n hn, ?_, ?_⟩
    · exact div_nonneg (Nat.cast_nonneg i) hpos.le
    · rw [div_le_one hpos]
      linarith
  · intro n hn
    have h2 : (2 : ℚ) ≤ (n : ℚ) := by exact_mod_cast hn
    have hne : ((n : ℚ) - 1) ≠ 0 := by linarith
    refine ⟨by rw [colorParam_eq 0 n hn]; simp, ?_⟩
    rw [colorParam_eq (n - 1) n hn]
    have hcast : ((n - 1 : Nat) : ℚ) = (n : ℚ) - 1 := by
      rw [Nat.cast_sub (by omega)]
      simp
    rw [hcast, div_self hne]
  · intro n i j hn hij hj
    have h2 : (2 : ℚ) ≤ (n : ℚ) := by exact_mod_cast hn
    have hpos : (0 : ℚ) < (n : ℚ) - 1 := by linarith
    refine ⟨_, _, colorParam_eq i n hn, colorParam_eq j n hn, ?_⟩
    exact div_lt_div_of_pos_right (by exact_mod_cast hij) hpos

/-- Witness of C5: the middle triangle of three has parameter 1/2. -/
theorem ribbonMesh_gradient_witness :
    (2 ≤ 3 ∧ 1 < 3) ∧
    (colorParam 1 3 = F64.fin (((1 : Nat) : ℚ) / (((3 : Nat) : ℚ) - 1)) ∧
      0 ≤ ((1 : Nat) : ℚ) / (((3 : Nat) : ℚ) - 1) ∧
      ((1 : Nat) : ℚ) / (((3 : Nat) : ℚ) - 1) ≤ 1) :=
  ⟨by decide, (ribbonMesh_gradient demoEnv).2.2.1 3 1 (by decide) (by decide)⟩

/-- In the concrete environment a chain of three triangles is coloured from the
parameters 0, 1/2 and 1, and a second chain of two triangles from 0 and 1. -/
theorem ribbonMesh_demo_colors :
    (RibbonMesh demoEnv (demoChainModel [demoChain 3, demoChain 2])).Triangles.map
        (fun t => t.color) =
      [some (SymColor.ramp (F64.fin 0)), some (SymColor.ramp (F64.fin (1 / 2))),
       some (SymColor.ramp (F64.fin 1)),
       some (SymColor.ramp (F64.fin 0)), some (SymColor.ramp (F64.fin 1))] := by
  simp [RibbonMesh, demoChainModel, chainRibbon, demoEnv, demoChain, Mesh.Add,
    Mesh.NewEmptyMesh, colorFrom, List.range, List.range.loop, colorParam, F64.div,
    F64.ofInt]

/-- C6. For a chain surface of exactly one triangle the parameter computed by
`RibbonMesh` is `float64(0) / float64(0)`, which is NaN and not 0: the colouring loop
colours the single triangle from NaN in every environment, and in the concrete
environment the mesh of a model with one one-triangle chain is that triangle coloured
from NaN, not from 0. -/
theorem ribbonMesh_single_triangle_nan :
    colorParam 0 1 = F64.nan ∧ colorParam 0 1 ≠ F64.fin 0 ∧
    (∀ (E : Env) (t : E.Triangle),
      colorFrom E [t].length 0 [t] =
        [E.SetColorTriangle (E.MakeColor (E.ViridisColor F64.nan)) t]) ∧
    (demoEnv.ChainMesh (demoChain 1)).length = 1 ∧
    (RibbonMesh demoEnv (demoChainModel [demoChain 1])).Triangles =
      [⟨100, [], some (SymColor.ramp F64.nan)⟩] ∧
    (RibbonMesh demoEnv (demoChainModel [demoChain 1])).Triangles ≠
      [⟨100, [], some (SymColor.ramp (F64.fin 0))⟩] := by
  have h : colorParam 0 1 = F64.nan := by
    simp [colorParam, F64.div, F64.ofInt]
  have hm : (RibbonMesh demoEnv (demoChainModel [demoChain 1])).Triangles =
      [⟨100, [], some (SymColor.ramp F64.nan)⟩] := by
    simp [RibbonMesh, demoChainModel, chainRibbon, demoEnv, demoChain, Mesh.Add,
      Mesh.NewEmptyMesh, colorFrom, List.range, List.range.loop, h]
  refine ⟨h, by rw [h]; exact fun hc => F64.noConfusion hc, ?_, ?_, hm, ?_⟩
  · intro E t
    simp [colorFrom, h]
  · decide
  · rw [hm]
    intro hc
    cases hc

/-! ### Finite arithmetic -/

/-- Finite values add as rationals. -/
theorem F64.add_fin (a b : ℚ) : F64.add (.fin a) (.fin b) = .fin (a + b) := rfl

/-- Finite values subtract as rationals. -/
theorem F64.sub_fin (a b : ℚ) : F64.sub (.fin a) (.fin b) = .fin (a - b) := by
  simp [F64.sub, F64.neg, F64.add, sub_eq_add_neg]

/-- Finite values multiply as rationals. -/
theorem F64.mul_fin (a b : ℚ) : F64.mul (.fin a) (.fin b) = .fin (a * b) := rfl

/-- A finite value over a non-zero finite value is the rational quotient. -/
theorem F64.div_fin (a b : ℚ) (hb : b ≠ 0) : F64.div (.fin a) (.fin b) = .fin (a / b) := by
  simp [F64.div, hb]

/-- The square root of a non-negative finite value is finite. -/
theorem F64.sqrt_fin (f : ℚ → ℚ) (a : ℚ) (ha : 0 ≤ a) : F64.sqrt f (.fin a) = .fin (f a) := by
  simp [F64.sqrt, not_lt.mpr ha]

/-- Finite vectors add coordinatewise. -/
theorem Vector.Add_ofRat (x y z x' y' z' : ℚ) :
    (Vector.ofRat x y z).Add (Vector.ofRat x' y' z') =
      Vector.ofRat (x + x') (y + y') (z + z') := rfl

/-- Finite vectors subtract coordinatewise. -/
theorem Vector.Sub_ofRat (x y z x' y' z' : ℚ) :
    (Vector.ofRat x y z).Sub (Vector.ofRat x' y' z') =
      Vector.ofRat (x - x') (y - y') (z - z') := by
  simp [Vector.Sub, Vector.ofRat, F64.sub_fin]

/-- A finite vector times a finite scalar. -/
theorem Vector.MulScalar_ofRat (x y z t : ℚ) :
    (Vector.ofRat x y z).MulScalar (.fin t) = Vector.ofRat (x * t) (y * t) (z * t) := rfl

/-- The sum of squares of a finite vector. -/
theorem Vector.sumSq_ofRat (x y z : ℚ) :
    (Vector.ofRat x y z).sumSq = .fin (x * x + y * y + z * z) := rfl

/-- The distance of two finite points. -/
theorem Vector.Distance_ofRat (f : ℚ → ℚ) (x y z x' y' z' : ℚ) :
    Vector.Distance f (Vector.ofRat x y z) (Vector.ofRat x' y' z') =
      .fin (f ((x - x') * (x - x') + (y - y') * (y - y') + (z - z') * (z - z'))) := by
  rw [Vector.Distance, Vector.Sub_ofRat, Vector.Length, Vector.sumSq_ofRat, F64.sqrt_fin]
  nlinarith [mul_self_nonneg (x - x'), mul_self_nonneg (y - y'), mul_self_nonneg (z - z')]

/-- A finite vector whose length is computed non-zero normalizes to a finite
vector. -/
theorem Vector.Normalize_ofRat (f : ℚ → ℚ) (x y z : ℚ)
    (hf : f (x * x + y * y + z * z) ≠ 0) :
    (Vector.ofRat x y z).Normalize f =
      Vector.ofRat (x * (1 / f (x * x + y * y + z * z)))
        (y * (1 / f (x * x + y * y + z * z))) (z * (1 / f (x * x + y * y + z * z))) := by
  have h0 : (0 : ℚ) ≤ x * x + y * y + z * z := by
    nlinarith [mul_self_nonneg x, mul_self_nonneg y, mul_self_nonneg z]
  simp only [Vector.Normalize, Vector.sumSq_ofRat, F64.sqrt_fin f _ h0, F64.div_fin 1 _ hf]
  rfl

/-- Interpolation between two finite points. -/
theorem Vector.Lerp_ofRat (x y z x' y' z' t : ℚ) :
    (Vector.ofRat x y z).Lerp (Vector.ofRat x' y' z') (.fin t) =
      Vector.ofRat (x + (x' - x) * t) (y + (y' - y) * t) (z + (z' - z) * t) := by
  rw [Vector.Lerp, Vector.Sub_ofRat, Vector.MulScalar_ofRat, Vector.Add_ofRat]

/-- Two finite vectors are equal exactly when their coordinates are. -/
theorem Vector.ofRat_inj (x y z x' y' z' : ℚ) :
    Vector.ofRat x y z = Vector.ofRat x' y' z' ↔ x = x' ∧ y = y' ∧ z = z' := by
  simp [Vector.ofRat]

/-- The squared distance of two distinct finite points is positive. -/
theorem sqDist_pos (x y z x' y' z' : ℚ)
    (hne : Vector.ofRat x y z ≠ Vector.ofRat x' y' z') :
    0 < (x' - x) * (x' - x) + (y' - y) * (y' - y) + (z' - z) * (z' - z) := by
  have h0 : 0 ≤ (x' - x) * (x' - x) + (y' - y) * (y' - y) + (z' - z) * (z' - z) := by
    nlinarith [mul_self_nonneg (x' - x), mul_self_nonneg (y' - y), mul_self_nonneg (z' - z)]
  rcases h0.lt_or_eq with h | h
  · exact h
  · exfalso
    apply hne
    rw [Vector.ofRat_inj]
    have hx : (x' - x) * (x' - x) = 0 := by
      nlinarith [mul_self_nonneg (x' - x), mul_self_nonneg (y' - y), mul_self_nonneg (z' - z)]
    have hy : (y' - y) * (y' - y) = 0 := by
      nlinarith [mul_self_nonneg (x' - x), mul_self_nonneg (y' - y), mul_self_nonneg (z' - z)]
    have hz : (z' - z) * (z' - z) = 0 := by
      nlinarith [mul_self_nonneg (x' - x), mul_self_nonneg (y' - y), mul_self_nonneg (z' - z)]
    refine ⟨?_, ?_, ?_⟩
    · have := mul_self_eq_zero.mp hx; linarith
    · have := mul_self_eq_zero.mp hy; linarith
    · have := mul_self_eq_zero.mp hz; linarith

/-- The attachment point of an atom with finite position and radius `r` on its bond
towards a distinct finite point: the position moved by `0.75 r - 0.1` along the
direction to the other atom divided by the computed distance. -/
theorem attachPoint_ofRat (E : Env) (a b : Atom) (x y z x' y' z' r : ℚ)
    (ha : a.Position = Vector.ofRat x y z) (hb : b.Position = Vector.ofRat x' y' z')
    (hr : (E.GetElement a).Radius = .fin r)
    (hf : E.Sqrt ((x' - x) * (x' - x) + (y' - y) * (y' - y) + (z' - z) * (z' - z)) ≠ 0) :
    attachPoint E a b =
      Vector.ofRat
        (x + (x' - x) *
          (1 / E.Sqrt ((x' - x) * (x' - x) + (y' - y) * (y' - y) + (z' - z) * (z' - z))) *
          (r * (3 / 4) - 1 / 10))
        (y + (y' - y) *
          (1 / E.Sqrt ((x' - x) * (x' - x) + (y' - y) * (y' - y) + (z' - z) * (z' - z))) *
          (r * (3 / 4) - 1 / 10))
        (z + (z' - z) *
          (1 / E.Sqrt ((x' - x) * (x' - x) + (y' - y) * (y' - y) + (z' - z) * (z' - z))) *
          (r * (3 / 4) - 1 / 10)) := by
  simp only [attachPoint, Vector.LerpDistance, ha, hb, hr, Vector.Sub_ofRat,
    Vector.Normalize_ofRat E.Sqrt _ _ _ hf, F64.mul_fin, F64.sub_fin,
    Vector.MulScalar_ofRat, Vector.Add_ofRat]

/-! ### Cylinders and bonds between finite points -/

/-- The centre, height and axis of `makeCylinder(p0, p1, r)`. -/
theorem makeCylinder_eq (E : Env) (p0 p1 : Vector) (r : F64) :
    makeCylinder E p0 p1 r =
      orientedCylinder E (cylinderCentre p0 p1) r (cylinderHeight E p0 p1)
        (cylinderAxis E p0 p1) := rfl

/-- Negating a finite factor negates the product, whatever the other factor. -/
theorem F64.neg_fin_mul (x : ℚ) (r : F64) :
    (F64.fin (-x)).mul r = ((F64.fin x).mul r).mul (.fin (-1)) := by
  cases r with
  | fin b => simp [F64.mul]
  | nan => simp [F64.mul]
  | inf s =>
    rcases lt_trichotomy x 0 with h | h | h
    · have h1 : ¬ (0 < x) := not_lt.mpr h.le
      have h2 : x ≠ 0 := h.ne
      cases s <;> simp [F64.mul, F64.timesInf, h, h1, h2]
    · subst h
      simp [F64.mul, F64.timesInf]
    · have h1 : ¬ (x < 0) := not_lt.mpr h.le
      have h2 : x ≠ 0 := h.ne'
      cases s <;> simp [F64.mul, F64.timesInf, h, h1, h2]

/-- Normalizing the opposite of a finite vector gives the opposite vector. -/
theorem Vector.Normalize_neg (f : ℚ → ℚ) (x y z : ℚ) :
    (Vector.ofRat (-x) (-y) (-z)).Normalize f =
      ((Vector.ofRat x y z).Normalize f).MulScalar (.fin (-1)) := by
  have hs : (Vector.ofRat (-x) (-y) (-z)).sumSq = (Vector.ofRat x y z).sumSq := by
    simp [Vector.sumSq_ofRat]
  simp only [Vector.Normalize, hs, Vector.MulScalar]
  simp only [Vector.ofRat, F64.neg_fin_mul]

/-- A cylinder between two finite points has the centre and the height of the
cylinder between the same points taken in the other order, and the opposite axis. -/
theorem makeCylinder_swap (E : Env) (x y z x' y' z' : ℚ) (r : F64) :
    makeCylinder E (Vector.ofRat x y z) (Vector.ofRat x' y' z') r =
      orientedCylinder E
        (cylinderCentre (Vector.ofRat x' y' z') (Vector.ofRat x y z)) r
        (cylinderHeight E (Vector.ofRat x' y' z') (Vector.ofRat x y z))
        ((cylinderAxis E (Vector.ofRat x' y' z') (Vector.ofRat x y z)).MulScalar
          (.fin (-1))) := by
  rw [makeCylinder_eq]
  have hc : (Vector.ofRat x y z).Add (Vector.ofRat x' y' z') =
      (Vector.ofRat x' y' z').Add (Vector.ofRat x y z) := by
    simp only [Vector.Add_ofRat, Vector.ofRat_inj]
    exact ⟨add_comm _ _, add_comm _ _, add_comm _ _⟩
  have hd : Vector.Distance E.Sqrt (Vector.ofRat x y z) (Vector.ofRat x' y' z') =
      Vector.Distance E.Sqrt (Vector.ofRat x' y' z') (Vector.ofRat x y z) := by
    rw [Vector.Distance_ofRat, Vector.Distance_ofRat]
    congr 2
    ring
  have hu : ((Vector.ofRat x' y' z').Sub (Vector.ofRat x y z)).Normalize E.Sqrt =
      (((Vector.ofRat x y z).Sub (Vector.ofRat x' y' z')).Normalize E.Sqrt).MulScalar
        (.fin (-1)) := by
    rw [Vector.Sub_ofRat, Vector.Sub_ofRat, ← Vector.Normalize_neg]
    congr 2 <;> ring
  simp only [cylinderCentre, cylinderHeight, cylinderAxis]
  rw [hc, hd, hu]

/-- The attachment point of an atom with finite position and radius on its bond
towards a distinct atom with finite position is finite. -/
theorem attachPoint_finite (E : Env) (a b : Atom) (x y z x' y' z' r : ℚ)
    (ha : a.Position = Vector.ofRat x y z) (hb : b.Position = Vector.ofRat x' y' z')
    (hr : (E.GetElement a).Radius = .fin r) (hne : a.Position ≠ b.Position)
    (hsqrt : ∀ q : ℚ, 0 < q → E.Sqrt q ≠ 0) :
    ∃ u v w : ℚ, attachPoint E a b = Vector.ofRat u v w := by
  rw [ha, hb] at hne
  exact ⟨_, _, _, attachPoint_ofRat E a b x y z x' y' z' r ha hb hr
    (hsqrt _ (sqDist_pos x y z x' y' z' hne))⟩

/-- The exact square root of a positive rational is not zero. -/
theorem exactSqrt_ne_zero (q : ℚ) (hq : 0 < q) : exactSqrt q ≠ 0 := by
  unfold exactSqrt
  have hnum : 0 < q.num := Rat.num_pos.mpr hq
  have h1 : 0 < Nat.sqrt q.num.toNat := by
    apply Nat.sqrt_pos.mpr
    omega
  have h2 : 0 < Nat.sqrt q.den := Nat.sqrt_pos.mpr q.den_pos
  have h1' : (0 : ℚ) < (Nat.sqrt q.num.toNat : ℚ) := by exact_mod_cast h1
  have h2' : (0 : ℚ) < (Nat.sqrt q.den : ℚ) := by exact_mod_cast h2
  exact (div_pos h1' h2').ne'

/-- The two halves of the stick of `makeConnection(a1, a2)`: from the attachment
point of `a1` to the middle in the colour of `a1`, then from the middle to the
attachment point of `a2` in the colour of `a2`. -/
theorem makeConnection_halves (E : Env) (a1 a2 : Atom) :
    (makeConnection E (some a1) (some a2)).Triangles =
      (bondHalf E (attachPoint E a1 a2) (connectionMid E a1 a2) a1).Triangles ++
        (bondHalf E (connectionMid E a1 a2) (attachPoint E a2 a1) a2).Triangles :=
  makeConnection_some E a1 a2

/-- The middle point of a bond between two atoms with finite positions and radii at
distinct positions is finite. -/
theorem connectionMid_finite (E : Env) (a1 a2 : Atom) (x1 y1 z1 x2 y2 z2 r1 r2 : ℚ)
    (h1 : a1.Position = Vector.ofRat x1 y1 z1) (h2 : a2.Position = Vector.ofRat x2 y2 z2)
    (hr1 : (E.GetElement a1).Radius = .fin r1) (hr2 : (E.GetElement a2).Radius = .fin r2)
    (hne : a1.Position ≠ a2.Position)
    (hsqrt : ∀ q : ℚ, 0 < q → E.Sqrt q ≠ 0) :
    ∃ u v w : ℚ, connectionMid E a1 a2 = Vector.ofRat u v w := by
  obtain ⟨u1, v1, w1, hP1⟩ :=
    attachPoint_finite E a1 a2 x1 y1 z1 x2 y2 z2 r1 h1 h2 hr1 hne hsqrt
  obtain ⟨u2, v2, w2, hP2⟩ :=
    attachPoint_finite E a2 a1 x2 y2 z2 x1 y1 z1 r2 h2 h1 hr2 (fun h => hne h.symm) hsqrt
  exact ⟨_, _, _, by rw [connectionMid, hP1, hP2, Vector.Lerp_ofRat]⟩

/-- C7, amended. For two atoms with finite positions and radii at distinct positions,
`makeConnection(a2, a1)` uses the two attachment points of `makeConnection(a1, a2)`
in exchanged order: its middle is the interpolation from the attachment point of
`a2` towards that of `a1`, its first half runs from the attachment point of `a2` to
that middle in the colour of `a2`, its second half from that middle to the
attachment point of `a1` in the colour of `a1`, both of radius 0.25.  Each of its
cylinders has the centre and the height of the cylinder between the same two points
taken in the other direction, and the opposite axis.  The middle of the one call is
not stated to be the middle of the other. -/
theorem makeConnection_swapped (E : Env) (a1 a2 : Atom) (x1 y1 z1 x2 y2 z2 r1 r2 : ℚ)
    (h1 : a1.Position = Vector.ofRat x1 y1 z1) (h2 : a2.Position = Vector.ofRat x2 y2 z2)
    (hr1 : (E.GetElement a1).Radius = .fin r1) (hr2 : (E.GetElement a2).Radius = .fin r2)
    (hne : a1.Position ≠ a2.Position)
    (hsqrt : ∀ q : ℚ, 0 < q → E.Sqrt q ≠ 0) :
    (makeConnection E (some a1) (some a2)).Triangles =
      (bondHalf E (attachPoint E a1 a2) (connectionMid E a1 a2) a1).Triangles ++
        (bondHalf E (connectionMid E a1 a2) (attachPoint E a2 a1) a2).Triangles ∧
    (makeConnection E (some a2) (some a1)).Triangles =
      (bondHalf E (attachPoint E a2 a1) (connectionMid E a2 a1) a2).Triangles ++
        (bondHalf E (connectionMid E a2 a1) (attachPoint E a1 a2) a1).Triangles ∧
    connectionMid E a1 a2 =
      (attachPoint E a1 a2).Lerp (attachPoint E a2 a1) (.fin (1 / 2)) ∧
    connectionMid E a2 a1 =
      (attachPoint E a2 a1).Lerp (attachPoint E a1 a2) (.fin (1 / 2)) ∧
    makeCylinder E (attachPoint E a2 a1) (connectionMid E a2 a1) (.fin (1 / 4)) =
      orientedCylinder E
        (cylinderCentre (connectionMid E a2 a1) (attachPoint E a2 a1)) (.fin (1 / 4))
        (cylinderHeight E (connectionMid E a2 a1) (attachPoint E a2 a1))
        ((cylinderAxis E (connectionMid E a2 a1) (attachPoint E a2 a1)).MulScalar
          (.fin (-1))) ∧
    makeCylinder E (connectionMid E a2 a1) (attachPoint E a1 a2) (.fin (1 / 4)) =
      orientedCylinder E
        (cylinderCentre (attachPoint E a1 a2) (connectionMid E a2 a1)) (.fin (1 / 4))
        (cylinderHeight E (attachPoint E a1 a2) (connectionMid E a2 a1))
        ((cylinderAxis E (attachPoint E a1 a2) (connectionMid E a2 a1)).MulScalar
          (.fin (-1))) := by
  obtain ⟨u1, v1, w1, hP1⟩ :=
    attachPoint_finite E a1 a2 x1 y1 z1 x2 y2 z2 r1 h1 h2 hr1 hne hsqrt
  obtain ⟨u2, v2, w2, hP2⟩ :=
    attachPoint_finite E a2 a1 x2 y2 z2 x1 y1 z1 r2 h2 h1 hr2 (fun h => hne h.symm) hsqrt
  obtain ⟨u, v, w, hM⟩ :=
    connectionMid_finite E a2 a1 x2 y2 z2 x1 y1 z1 r2 r1 h2 h1 hr2 hr1
      (fun h => hne h.symm) hsqrt
  refine ⟨makeConnection_halves E a1 a2, makeConnection_halves E a2 a1, rfl, rfl, ?_, ?_⟩
  · rw [hM, hP2, makeCylinder_swap]
  · rw [hM, hP1, makeCylinder_swap]

/-- Witness of C7 as amended: an oxygen at the origin and a carbon at distance 4. -/
theorem makeConnection_swapped_witness :
    (demoO.Position = Vector.ofRat 0 0 0 ∧ demoC.Position = Vector.ofRat 4 0 0 ∧
      (demoEnv.GetElement demoO).Radius = .fin 2 ∧
      (demoEnv.GetElement demoC).Radius = .fin 1 ∧
      demoO.Position ≠ demoC.Position ∧ ∀ q : ℚ, 0 < q → demoEnv.Sqrt q ≠ 0) ∧
    (makeConnection demoEnv (some demoC) (some demoO)).Triangles =
      (bondHalf demoEnv (attachPoint demoEnv demoC demoO) (connectionMid demoEnv demoC demoO)
          demoC).Triangles ++
        (bondHalf demoEnv (connectionMid demoEnv demoC demoO) (attachPoint demoEnv demoO demoC)
          demoO).Triangles :=
  ⟨⟨rfl, rfl, rfl, rfl, by decide, exactSqrt_ne_zero⟩,
    (makeConnection_swapped demoEnv demoO demoC 0 0 0 4 0 0 2 1 rfl rfl rfl rfl (by decide)
      exactSqrt_ne_zero).2.1⟩

/-- The exact square root of 16 is 4. -/
theorem exactSqrt_sixteen : exactSqrt 16 = 4 := by
  have h16 : Nat.sqrt 16 = 4 := Nat.sqrt_eq 4
  have h1 : Nat.sqrt 1 = 1 := Nat.sqrt_eq 1
  have hn : (16 : ℚ).num.toNat = 16 := by
    rw [show (16 : ℚ) = ((16 : ℕ) : ℚ) by norm_num, Rat.num_natCast]
    rfl
  have hd : (16 : ℚ).den = 1 := by
    rw [show (16 : ℚ) = ((16 : ℕ) : ℚ) by norm_num, Rat.den_natCast]
  unfold exactSqrt
  rw [hn, hd, h16, h1]
  norm_num

/-- In the concrete environment, the oxygen (radius 2) at the origin and the carbon
(radius 1) at distance 4 on the first axis attach at 1.4 and at 3.35. -/
theorem attachPoint_demo :
    attachPoint demoEnv demoO demoC = Vector.ofRat (7 / 5) 0 0 ∧
    attachPoint demoEnv demoC demoO = Vector.ofRat (67 / 20) 0 0 := by
  have hs1 : ((4 : ℚ) - 0) * (4 - 0) + (0 - 0) * (0 - 0) + (0 - 0) * (0 - 0) = 16 := by
    norm_num
  have hs2 : ((0 : ℚ) - 4) * (0 - 4) + (0 - 0) * (0 - 0) + (0 - 0) * (0 - 0) = 16 := by
    norm_num
  have hq : demoEnv.Sqrt 16 = 4 := exactSqrt_sixteen
  constructor
  · rw [attachPoint_ofRat demoEnv demoO demoC 0 0 0 4 0 0 2 rfl rfl rfl
      (by rw [hs1, hq]; norm_num), hs1, hq, Vector.ofRat_inj]
    norm_num
  · rw [attachPoint_ofRat demoEnv demoC demoO 4 0 0 0 0 0 1 rfl rfl rfl
      (by rw [hs2, hq]; norm_num), hs2, hq, Vector.ofRat_inj]
    norm_num

/-- The exact square root of the square of a fraction in lowest terms is that
fraction. -/
theorem exactSqrt_sq (n d : ℕ) (hd : 0 < d) (hnd : Nat.Coprime n d) :
    exactSqrt (((n : ℚ) / (d : ℚ)) * ((n : ℚ) / (d : ℚ))) = (n : ℚ) / (d : ℚ) := by
  have hq : ((n : ℚ) / (d : ℚ)) * ((n : ℚ) / (d : ℚ)) =
      (((n * n : ℕ) : ℤ) : ℚ) / (((d * d : ℕ) : ℤ) : ℚ) := by
    push_cast
    field_simp
  have hcop : Nat.Coprime (n * n) (d * d) :=
    Nat.Coprime.mul (Nat.Coprime.mul_right hnd hnd) (Nat.Coprime.mul_right hnd hnd)
  have hdd : (0 : ℤ) < ((d * d : ℕ) : ℤ) := by exact_mod_cast Nat.mul_pos hd hd
  have hcop' : Nat.Coprime ((n * n : ℕ) : ℤ).natAbs ((d * d : ℕ) : ℤ).natAbs := by
    simpa using hcop
  have hnum := Rat.num_div_eq_of_coprime hdd hcop'
  have hden := Rat.den_div_eq_of_coprime hdd hcop'
  have hden' : ((((n * n : ℕ) : ℤ) : ℚ) / (((d * d : ℕ) : ℤ) : ℚ)).den = d * d := by
    exact_mod_cast hden
  rw [hq]
  unfold exactSqrt
  rw [hnum, hden', Int.toNat_natCast, Nat.sqrt_eq, Nat.sqrt_eq]

/-- In the concrete environment, for the oxygen at the origin and the carbon at
(4, 0, 0): the second cylinder of `makeConnection(O, C)`, from the middle to the
attachment point of the carbon, has its axis along the first coordinate axis, and
the first cylinder of `makeConnection(C, O)`, from the attachment point of the carbon
to the middle, has it the other way. -/
theorem cylinderAxis_demo :
    cylinderAxis demoEnv (connectionMid demoEnv demoO demoC) (attachPoint demoEnv demoC demoO) =
      Vector.ofRat 1 0 0 ∧
    cylinderAxis demoEnv (attachPoint demoEnv demoC demoO) (connectionMid demoEnv demoC demoO) =
      Vector.ofRat (-1) 0 0 := by
  have hq : demoEnv.Sqrt (1521 / 1600) = 39 / 40 := by
    have h := exactSqrt_sq 39 40 (by decide) (by decide)
    norm_num at h
    exact h
  have hM : connectionMid demoEnv demoO demoC = Vector.ofRat (19 / 8) 0 0 := by
    rw [connectionMid, attachPoint_demo.1, attachPoint_demo.2, Vector.Lerp_ofRat,
      Vector.ofRat_inj]
    norm_num
  have hM' : connectionMid demoEnv demoC demoO = Vector.ofRat (19 / 8) 0 0 := by
    rw [connectionMid, attachPoint_demo.1, attachPoint_demo.2, Vector.Lerp_ofRat,
      Vector.ofRat_inj]
    norm_num
  have hs1 : ((67 / 20 : ℚ) - 19 / 8) * (67 / 20 - 19 / 8) + (0 - 0) * (0 - 0) +
      (0 - 0) * (0 - 0) = 1521 / 1600 := by norm_num
  have hs2 : ((19 / 8 : ℚ) - 67 / 20) * (19 / 8 - 67 / 20) + (0 - 0) * (0 - 0) +
      (0 - 0) * (0 - 0) = 1521 / 1600 := by norm_num
  constructor
  · rw [cylinderAxis, hM, attachPoint_demo.2, Vector.Sub_ofRat,
      Vector.Normalize_ofRat demoEnv.Sqrt _ _ _ (by rw [hs1, hq]; norm_num), hs1, hq,
      Vector.ofRat_inj]
    norm_num
  · rw [cylinderAxis, hM', attachPoint_demo.2, Vector.Sub_ofRat,
      Vector.Normalize_ofRat demoEnv.Sqrt _ _ _ (by rw [hs2, hq]; norm_num), hs2, hq,
      Vector.ofRat_inj]
    norm_num

/-- Counterexample to C7: for the oxygen at the origin and the carbon at (4, 0, 0)
the result of `makeConnection(C, O)` is not the two cylinders of
`makeConnection(O, C)` in exchanged order: the cylinder between the middle and the
attachment point of the carbon has its axis along the positive first coordinate in
the one call and along the negative in the other, so its triangles are transformed
by another matrix. -/
theorem makeConnection_swap_not_exchange :
    (makeConnection demoEnv (some demoO) (some demoC)).Triangles =
      (bondHalf demoEnv (attachPoint demoEnv demoO demoC) (connectionMid demoEnv demoO demoC)
          demoO).Triangles ++
        (bondHalf demoEnv (connectionMid demoEnv demoO demoC) (attachPoint demoEnv demoC demoO)
          demoC).Triangles ∧
    (∃ u v : ℚ,
      cylinderAxis demoEnv (connectionMid demoEnv demoO demoC)
          (attachPoint demoEnv demoC demoO) = Vector.ofRat u 0 0 ∧
      cylinderAxis demoEnv (attachPoint demoEnv demoC demoO)
          (connectionMid demoEnv demoC demoO) = Vector.ofRat v 0 0 ∧
      0 < u ∧ v < 0) ∧
    (makeConnection demoEnv (some demoC) (some demoO)).Triangles ≠
      (bondHalf demoEnv (connectionMid demoEnv demoO demoC) (attachPoint demoEnv demoC demoO)
          demoC).Triangles ++
        (bondHalf demoEnv (attachPoint demoEnv demoO demoC) (connectionMid demoEnv demoO demoC)
          demoO).Triangles := by
  refine ⟨makeConnection_halves demoEnv demoO demoC,
    ⟨1, -1, cylinderAxis_demo.1, cylinderAxis_demo.2, by norm_num, by norm_num⟩, ?_⟩
  intro h
  have hL : (makeConnection demoEnv (some demoC) (some demoO)).Triangles.head?.map
      (fun t : SymTriangle => t.placed) =
      some [SymMatrix.orient
        (cylinderCentre (attachPoint demoEnv demoC demoO) (connectionMid demoEnv demoC demoO))
        (Vector.V (.fin (1 / 4)) (.fin (1 / 4))
          (cylinderHeight demoEnv (attachPoint demoEnv demoC demoO)
            (connectionMid demoEnv demoC demoO)))
        (cylinderAxis demoEnv (attachPoint demoEnv demoC demoO)
          (connectionMid demoEnv demoC demoO)) (.fin 0)] := rfl
  have hR : ((bondHalf demoEnv (connectionMid demoEnv demoO demoC)
        (attachPoint demoEnv demoC demoO) demoC).Triangles ++
      (bondHalf demoEnv (attachPoint demoEnv demoO demoC) (connectionMid demoEnv demoO demoC)
        demoO).Triangles).head?.map (fun t : SymTriangle => t.placed) =
      some [SymMatrix.orient
        (cylinderCentre (connectionMid demoEnv demoO demoC) (attachPoint demoEnv demoC demoO))
        (Vector.V (.fin (1 / 4)) (.fin (1 / 4))
          (cylinderHeight demoEnv (connectionMid demoEnv demoO demoC)
            (attachPoint demoEnv demoC demoO)))
        (cylinderAxis demoEnv (connectionMid demoEnv demoO demoC)
          (attachPoint demoEnv demoC demoO)) (.fin 0)] := rfl
  rw [h, hR] at hL
  have hm := List.head_eq_of_cons_eq (Option.some.inj hL)
  have hax : cylinderAxis demoEnv (connectionMid demoEnv demoO demoC)
      (attachPoint demoEnv demoC demoO) =
      cylinderAxis demoEnv (attachPoint demoEnv demoC demoO)
        (connectionMid demoEnv demoC demoO) := by
    injection hm
  rw [cylinderAxis_demo.1, cylinderAxis_demo.2, Vector.ofRat_inj] at hax
  norm_num at hax

/-- Counterexample to C8: for an oxygen of radius 2 at the origin and a carbon of
radius 1 at (4, 0, 0) the two cylinders of `makeConnection` meet at (2.375, 0, 0),
while the midpoint of the two positions is (2, 0, 0). -/
theorem connectionMid_not_midpoint :
    demoO.Position = Vector.ofRat 0 0 0 ∧ demoC.Position = Vector.ofRat 4 0 0 ∧
    connectionMid demoEnv demoO demoC = Vector.ofRat (19 / 8) 0 0 ∧
    segmentMidpoint demoO.Position demoC.Position = Vector.ofRat 2 0 0 ∧
    connectionMid demoEnv demoO demoC ≠ segmentMidpoint demoO.Position demoC.Position := by
  have hmid : connectionMid demoEnv demoO demoC = Vector.ofRat (19 / 8) 0 0 := by
    rw [connectionMid, attachPoint_demo.1, attachPoint_demo.2, Vector.Lerp_ofRat,
      Vector.ofRat_inj]
    norm_num
  have hgeo : segmentMidpoint demoO.Position demoC.Position = Vector.ofRat 2 0 0 := by
    rw [segmentMidpoint, show demoO.Position = Vector.ofRat 0 0 0 from rfl,
      show demoC.Position = Vector.ofRat 4 0 0 from rfl, Vector.Add_ofRat,
      Vector.MulScalar_ofRat, Vector.ofRat_inj]
    norm_num
  refine ⟨rfl, rfl, hmid, hgeo, ?_⟩
  rw [hmid, hgeo, Ne, Vector.ofRat_inj]
  norm_num

/-- C8, amended. For two atoms with finite positions and radii `r1`, `r2` at distinct
positions, the point where the two cylinders of `makeConnection` meet is the
interpolation at 0.5 between the two attachment points, each of which is the
position of its atom moved towards the other atom, over the computed distance, by
`0.75` times the radius of its element minus `0.1`: it is computed from the two radii
and not from the positions alone. -/
theorem connectionMid_attachment (E : Env) (a1 a2 : Atom) (x1 y1 z1 x2 y2 z2 r1 r2 : ℚ)
    (h1 : a1.Position = Vector.ofRat x1 y1 z1) (h2 : a2.Position = Vector.ofRat x2 y2 z2)
    (hr1 : (E.GetElement a1).Radius = .fin r1) (hr2 : (E.GetElement a2).Radius = .fin r2)
    (hne : a1.Position ≠ a2.Position)
    (hsqrt : ∀ q : ℚ, 0 < q → E.Sqrt q ≠ 0) :
    (makeConnection E (some a1) (some a2)).Triangles =
      (bondHalf E (attachPoint E a1 a2) (connectionMid E a1 a2) a1).Triangles ++
        (bondHalf E (connectionMid E a1 a2) (attachPoint E a2 a1) a2).Triangles ∧
    attachPoint E a1 a2 =
      Vector.ofRat (attachCoord (computedDistance E x1 y1 z1 x2 y2 z2) x1 x2 r1)
        (attachCoord (computedDistance E x1 y1 z1 x2 y2 z2) y1 y2 r1)
        (attachCoord (computedDistance E x1 y1 z1 x2 y2 z2) z1 z2 r1) ∧
    attachPoint E a2 a1 =
      Vector.ofRat (attachCoord (computedDistance E x2 y2 z2 x1 y1 z1) x2 x1 r2)
        (attachCoord (computedDistance E x2 y2 z2 x1 y1 z1) y2 y1 r2)
        (attachCoord (computedDistance E x2 y2 z2 x1 y1 z1) z2 z1 r2) ∧
    connectionMid E a1 a2 =
      Vector.ofRat
        (halfway (attachCoord (computedDistance E x1 y1 z1 x2 y2 z2) x1 x2 r1)
          (attachCoord (computedDistance E x2 y2 z2 x1 y1 z1) x2 x1 r2))
        (halfway (attachCoord (computedDistance E x1 y1 z1 x2 y2 z2) y1 y2 r1)
          (attachCoord (computedDistance E x2 y2 z2 x1 y1 z1) y2 y1 r2))
        (halfway (attachCoord (computedDistance E x1 y1 z1 x2 y2 z2) z1 z2 r1)
          (attachCoord (computedDistance E x2 y2 z2 x1 y1 z1) z2 z1 r2)) := by
  have hne12 : Vector.ofRat x1 y1 z1 ≠ Vector.ofRat x2 y2 z2 := by
    rw [← h1, ← h2]; exact hne
  have hne21 : Vector.ofRat x2 y2 z2 ≠ Vector.ofRat x1 y1 z1 := fun h => hne12 h.symm
  have hP1 : attachPoint E a1 a2 =
      Vector.ofRat (attachCoord (computedDistance E x1 y1 z1 x2 y2 z2) x1 x2 r1)
        (attachCoord (computedDistance E x1 y1 z1 x2 y2 z2) y1 y2 r1)
        (attachCoord (computedDistance E x1 y1 z1 x2 y2 z2) z1 z2 r1) :=
    attachPoint_ofRat E a1 a2 x1 y1 z1 x2 y2 z2 r1 h1 h2 hr1
      (hsqrt _ (sqDist_pos x1 y1 z1 x2 y2 z2 hne12))
  have hP2 : attachPoint E a2 a1 =
      Vector.ofRat (attachCoord (computedDistance E x2 y2 z2 x1 y1 z1) x2 x1 r2)
        (attachCoord (computedDistance E x2 y2 z2 x1 y1 z1) y2 y1 r2)
        (attachCoord (computedDistance E x2 y2 z2 x1 y1 z1) z2 z1 r2) :=
    attachPoint_ofRat E a2 a1 x2 y2 z2 x1 y1 z1 r2 h2 h1 hr2
      (hsqrt _ (sqDist_pos x2 y2 z2 x1 y1 z1 hne21))
  refine ⟨makeConnection_halves E a1 a2, hP1, hP2, ?_⟩
  rw [connectionMid, hP1, hP2, Vector.Lerp_ofRat]
  rfl

/-- Witness of C8 as amended: the oxygen (radius 2) at the origin and the carbon
(radius 1) at distance 4. -/
theorem connectionMid_attachment_witness :
    (demoO.Position = Vector.ofRat 0 0 0 ∧ demoC.Position = Vector.ofRat 4 0 0 ∧
      (demoEnv.GetElement demoO).Radius = .fin 2 ∧
      (demoEnv.GetElement demoC).Radius = .fin 1 ∧
      demoO.Position ≠ demoC.Position ∧ ∀ q : ℚ, 0 < q → demoEnv.Sqrt q ≠ 0) ∧
    connectionMid demoEnv demoO demoC =
      Vector.ofRat
        (halfway (attachCoord (computedDistance demoEnv 0 0 0 4 0 0) 0 4 2)
          (attachCoord (computedDistance demoEnv 4 0 0 0 0 0) 4 0 1))
        (halfway (attachCoord (computedDistance demoEnv 0 0 0 4 0 0) 0 0 2)
          (attachCoord (computedDistance demoEnv 4 0 0 0 0 0) 0 0 1))
        (halfway (attachCoord (computedDistance demoEnv 0 0 0 4 0 0) 0 0 2)
          (attachCoord (computedDistance demoEnv 4 0 0 0 0 0) 0 0 1)) :=
  ⟨⟨rfl, rfl, rfl, rfl, by decide, exactSqrt_ne_zero⟩,
    (connectionMid_attachment demoEnv demoO demoC 0 0 0 4 0 0 2 1 rfl rfl rfl rfl (by decide)
      exactSqrt_ne_zero).2.2.2⟩

/-! ### Mesh -/

/-- The triangles of `Mesh`: those of `RibbonMesh`, then those of `HetMesh`. -/
theorem mesh_triangles (E : Env) (model : Model E) :
    (Model.Mesh E model).Triangles =
      (RibbonMesh E model).Triangles ++ (HetMesh E model).Triangles := by
  simp [Model.Mesh, Mesh.Add, Mesh.NewEmptyMesh]

/-- C9. `Mesh` returns exactly the triangles of `RibbonMesh` followed by those of
`HetMesh`, so its count is the sum of the two counts; it adds nothing of
`SpaceFillingMesh`: the atoms of the model, which are all that `SpaceFillingMesh`
reads, can be replaced by any others without changing `Mesh`. -/
theorem mesh_is_ribbon_then_het (E : Env) (model : Model E) :
    (Model.Mesh E model).Triangles =
      (RibbonMesh E model).Triangles ++ (HetMesh E model).Triangles ∧
    (Model.Mesh E model).Triangles.length =
      (RibbonMesh E model).Triangles.length + (HetMesh E model).Triangles.length ∧
    (∀ atoms : List Atom,
      (Model.Mesh E { model with Atoms := atoms }).Triangles =
        (Model.Mesh E model).Triangles) ∧
    SpaceFillingMesh E model =
      model.Atoms.foldl (spaceFillingStep E) Mesh.NewEmptyMesh := by
  refine ⟨mesh_triangles E model, ?_, ?_, rfl⟩
  · rw [mesh_triangles, List.length_append]
  · intro atoms
    rw [mesh_triangles, mesh_triangles, ribbonMesh_triangles, ribbonMesh_triangles,
      hetMesh_triangles, hetMesh_triangles]

/-- In the concrete environment, a model of one backbone atom with no chain and no
heteroatom has a space-filling mesh of one sphere and an empty mesh. -/
theorem mesh_demo_no_spaceFilling :
    (SpaceFillingMesh demoEnv
      { demoHetModel [] [] with Atoms := [demoCA 1] }).Triangles.length = 2 ∧
    (Model.Mesh demoEnv { demoHetModel [] [] with Atoms := [demoCA 1] }).Triangles = [] :=
  ⟨by decide, rfl⟩

/-- C10. For a model with no chains and no heteroatoms, whatever its connections,
`RibbonMesh`, `HetMesh` and `Mesh` have no triangles. -/
theorem mesh_empty_model (E : Env) (model : Model E)
    (hc : model.Chains = []) (hh : model.HetAtoms = []) :
    (RibbonMesh E model).Triangles = [] ∧ (HetMesh E model).Triangles = [] ∧
    (Model.Mesh E model).Triangles = [] := by
  have hr : (RibbonMesh E model).Triangles = [] := by
    rw [ribbonMesh_triangles, hc]
    rfl
  have hm : (HetMesh E model).Triangles = [] := by
    rw [hetMesh_triangles, hh]
    have hb : ∀ c : Connection, (hetBond E [] c).Triangles = [] := by
      intro c
      exact (makeConnection_none E _).1
    simp [hb]
  refine ⟨hr, hm, ?_⟩
  rw [mesh_triangles, hr, hm]
  rfl

/-- Witness of C10: no chains, no heteroatoms, and the connections (1, 2) and
(3, 3). -/
theorem mesh_empty_model_witness :
    ((demoHetModel [] [⟨1, 2⟩, ⟨3, 3⟩]).Chains = [] ∧
      (demoHetModel [] [⟨1, 2⟩, ⟨3, 3⟩]).HetAtoms = []) ∧
    (Model.Mesh demoEnv (demoHetModel [] [⟨1, 2⟩, ⟨3, 3⟩])).Triangles = [] :=
  ⟨⟨rfl, rfl⟩, (mesh_empty_model demoEnv (demoHetModel [] [⟨1, 2⟩, ⟨3, 3⟩]) rfl rfl).2.2⟩

/-! ### Camera -/

/-- Reading after one in-place write: the written index holds the image of its old
element, every other index its old element. -/
theorem getElem?_updateAt {α : Type} (f : α → α) (l : List α) (i j : Nat) :
    (updateAt f l i)[j]? = if j = i then l[j]?.map f else l[j]? := by
  unfold updateAt
  by_cases hij : j = i
  · subst hij
    cases h : l[j]? with
    | none => simp [h]
    | some x =>
      have hlt : j < l.length := by
        by_contra hge
        rw [List.getElem?_eq_none (not_lt.mp hge)] at h
        cases h
      simp [List.getElem?_set, hlt]
  · have hji : i ≠ j := fun h => hij h.symm
    cases h : l[i]? with
    | none => simp [hij]
    | some x => simp [List.getElem?_set, hij, hji]

/-- Reading after the in-place writes at the indices `n, n + 1, ..., n + k - 1`:
these indices hold the images of their old elements, the others their old
elements. -/
theorem getElem?_foldl_updateAt {α : Type} (f : α → α) (n k : Nat) (l : List α) (j : Nat) :
    ((List.range k).foldl (fun l i => updateAt f l (n + i)) l)[j]? =
      if n ≤ j ∧ j < n + k then l[j]?.map f else l[j]? := by
  induction k with
  | zero =>
    have h0 : ¬ (n ≤ j ∧ j < n) := by omega
    simp [h0]
  | succ k ih =>
    rw [List.range_succ, List.foldl_append, List.foldl_cons, List.foldl_nil,
      getElem?_updateAt, ih]
    by_cases h1 : j = n + k
    · have h2 : ¬ (n ≤ j ∧ j < n + k) := by omega
      have h3 : n ≤ j ∧ j < n + (k + 1) := by omega
      simp [h1, h2, h3]
    · by_cases h2 : n ≤ j ∧ j < n + k
      · have h3 : n ≤ j ∧ j < n + (k + 1) := by omega
        simp [h1, h2, h3]
      · have h3 : ¬ (n ≤ j ∧ j < n + (k + 1)) := by omega
        simp [h1, h2, h3]

/-- The second loop of `Camera` replaces every point by its image under
`matrix.MulPosition`, in place and in order. -/
theorem transformPoints_eq_map (E : Env) (matrix : E.Matrix) (points : List Vector) :
    transformPoints E matrix points = points.map (E.MulPosition matrix) := by
  apply List.ext_getElem?
  intro j
  have h := getElem?_foldl_updateAt (E.MulPosition matrix) 0 points.length points j
  simp only [Nat.zero_add, Nat.zero_le, true_and] at h
  unfold transformPoints
  rw [h, List.getElem?_map]
  by_cases hj : j < points.length
  · simp [hj]
  · simp [hj, List.getElem?_eq_none (not_lt.mp hj)]

/-- The first loop of `Camera` panics when some residue has no atom named `CA`. -/
theorem collectCA_error (points : List Vector) (residues : List Residue)
    (h : ∃ r ∈ residues, r.Atoms "CA" = none) :
    collectCA points residues = Except.error Fault.nilDereference := by
  induction residues generalizing points with
  | nil =>
    obtain ⟨r, hr, _⟩ := h
    cases hr
  | cons r rs ih =>
    cases hca : r.Atoms "CA" with
    | none => simp [collectCA, hca]
    | some a =>
      have h' : ∃ r' ∈ rs, r'.Atoms "CA" = none := by
        obtain ⟨r', hr', hn⟩ := h
        rcases List.mem_cons.mp hr' with heq | hmem
        · subst heq
          rw [hca] at hn
          cases hn
        · exact ⟨r', hmem, hn⟩
      simp [collectCA, hca, ih _ h']

/-- The first loop of `Camera` appends the `CA` positions, in residue order, when
every residue has an atom named `CA`. -/
theorem collectCA_ok (points : List Vector) (residues : List Residue)
    (h : ∀ r ∈ residues, ∃ a, r.Atoms "CA" = some a) :
    collectCA points residues = Except.ok (points ++ caPositions residues) := by
  induction residues generalizing points with
  | nil => simp [collectCA, caPositions]
  | cons r rs ih =>
    obtain ⟨a, ha⟩ := h r (List.mem_cons_self _ _)
    have h' : ∀ r' ∈ rs, ∃ a, r'.Atoms "CA" = some a :=
      fun r' hr' => h r' (List.mem_cons_of_mem _ hr')
    have hc : caPositions (r :: rs) = a.Position :: caPositions rs := by
      simp [caPositions, ha]
    simp [collectCA, ha, ih _ h', hc]

/-- When every residue has an atom named `CA`, the `CA` positions are one per
residue: the point of index `i` is the position of the `CA` atom of residue `i`. -/
theorem getElem?_caPositions (residues : List Residue)
    (h : ∀ r ∈ residues, ∃ a, r.Atoms "CA" = some a) (i : Nat) :
    (caPositions residues)[i]? =
      residues[i]?.bind fun r => (r.Atoms "CA").map fun a => a.Position := by
  induction residues generalizing i with
  | nil => simp [caPositions]
  | cons r rs ih =>
    obtain ⟨a, ha⟩ := h r (List.mem_cons_self _ _)
    have h' : ∀ r' ∈ rs, ∃ a, r'.Atoms "CA" = some a :=
      fun r' hr' => h r' (List.mem_cons_of_mem _ hr')
    have hc : caPositions (r :: rs) = a.Position :: caPositions rs := by
      simp [caPositions, ha]
    rw [hc]
    cases i with
    | zero => simp [ha]
    | succ i => simpa using ih h' i

/-- When every residue has an atom named `CA`, there are as many `CA` positions as
residues. -/
theorem length_caPositions (residues : List Residue)
    (h : ∀ r ∈ residues, ∃ a, r.Atoms "CA" = some a) :
    (caPositions residues).length = residues.length := by
  induction residues with
  | nil => simp [caPositions]
  | cons r rs ih =>
    obtain ⟨a, ha⟩ := h r (List.mem_cons_self _ _)
    have h' : ∀ r' ∈ rs, ∃ a, r'.Atoms "CA" = some a :=
      fun r' hr' => h r' (List.mem_cons_of_mem _ hr')
    have hc : caPositions (r :: rs) = a.Position :: caPositions rs := by
      simp [caPositions, ha]
    rw [hc, List.length_cons, List.length_cons, ih h']

/-- When some residue of the model has no atom named `CA`, the call of `Camera`
panics on the nil dereference. -/
theorem camera_panics_without_CA (E : Env) (model : Model E) (matrix : E.Matrix)
    (h : ∃ r ∈ model.Residues, r.Atoms "CA" = none) :
    Camera E model matrix = Except.error Fault.nilDereference := by
  simp [Camera, collectCA_error [] model.Residues h]

/-- C11. For a model whose second residue has no atom named `CA` the call of `Camera`
panics on a nil dereference instead of reporting the residue, and so it does when
the residue without `CA` is another one, in another place: the panic is the same and
names no residue.  The same nil lookup handed to `makeConnection`, which tests its
atoms, gives an empty mesh and no panic. -/
theorem camera_missing_CA_panics :
    (demoResidue (demoN 2)).Atoms "CA" = none ∧
    Camera demoEnv (demoResidueModel [demoResidue (demoCA 1), demoResidue (demoN 2)])
        (SymMatrix.scale (Vector.ofRat 1 1 1)) =
      Except.error Fault.nilDereference ∧
    Camera demoEnv (demoResidueModel [demoResidue (demoN 7), demoResidue (demoCA 1)])
        (SymMatrix.scale (Vector.ofRat 1 1 1)) =
      Except.error Fault.nilDereference ∧
    (makeConnection demoEnv ((demoResidue (demoN 2)).Atoms "CA")
      ((demoResidue (demoN 2)).Atoms "N")).Triangles = [] :=
  ⟨rfl, rfl, rfl, rfl⟩

/-- C12. For a model in which every residue has an atom named `CA`, and any view
matrix, `Camera` does not panic: its first loop collects the `CA` positions, its
second loop transforms them in place in the local slice, and `makeCamera` receives
one point per residue, in residue order, the point of index `i` being
`matrix.MulPosition` of the position of the `CA` atom of residue `i`.  `Camera` only
reads the model and its result is the camera alone. -/
theorem camera_points (E : Env) (model : Model E) (matrix : E.Matrix)
    (h : ∀ r ∈ model.Residues, ∃ a, r.Atoms "CA" = some a) :
    ∃ collected points : List Vector,
      collectCA [] model.Residues = Except.ok collected ∧
      transformPoints E matrix collected = points ∧
      Camera E model matrix = Except.ok (E.makeCamera points) ∧
      points.length = model.Residues.length ∧
      ∀ (i : Nat) (r : Residue) (a : Atom), model.Residues[i]? = some r →
        r.Atoms "CA" = some a → points[i]? = some (E.MulPosition matrix a.Position) := by
  have hcol : collectCA [] model.Residues = Except.ok (caPositions model.Residues) := by
    rw [collectCA_ok [] model.Residues h]
    simp
  refine ⟨caPositions model.Residues, (caPositions model.Residues).map (E.MulPosition matrix),
    hcol, transformPoints_eq_map E matrix _, ?_, ?_, ?_⟩
  · simp [Camera, hcol, transformPoints_eq_map]
  · rw [List.length_map, length_caPositions model.Residues h]
  · intro i r a hr ha
    rw [List.getElem?_map, getElem?_caPositions model.Residues h, hr]
    simp [ha]

/-- Every residue of two residues made of a `CA` atom has an atom named `CA`. -/
theorem demoCA_residues_have_CA :
    ∀ r ∈ (demoResidueModel [demoResidue (demoCA 1), demoResidue (demoCA 2)]).Residues,
      ∃ a, r.Atoms "CA" = some a := by
  intro r hr
  simp only [demoResidueModel, List.mem_cons, List.mem_singleton, List.not_mem_nil,
    or_false] at hr
  rcases hr with h | h
  · exact ⟨demoCA 1, by rw [h]; rfl⟩
  · exact ⟨demoCA 2, by rw [h]; rfl⟩

/-- Witness of C12: two residues, each made of one `CA` atom. -/
theorem camera_points_witness :
    (∀ r ∈ (demoResidueModel [demoResidue (demoCA 1), demoResidue (demoCA 2)]).Residues,
      ∃ a, r.Atoms "CA" = some a) ∧
    ∃ collected points : List Vector,
      collectCA [] (demoResidueModel [demoResidue (demoCA 1), demoResidue (demoCA 2)]).Residues =
        Except.ok collected ∧
      transformPoints demoEnv (SymMatrix.scale (Vector.ofRat 1 1 1)) collected = points ∧
      Camera demoEnv (demoResidueModel [demoResidue (demoCA 1), demoResidue (demoCA 2)])
          (SymMatrix.scale (Vector.ofRat 1 1 1)) = Except.ok (demoEnv.makeCamera points) ∧
      points.length =
        (demoResidueModel [demoResidue (demoCA 1), demoResidue (demoCA 2)]).Residues.length ∧
      ∀ (i : Nat) (r : Residue) (a : Atom),
        (demoResidueModel [demoResidue (demoCA 1), demoResidue (demoCA 2)]).Residues[i]? =
          some r →
        r.Atoms "CA" = some a →
        points[i]? =
          some (demoEnv.MulPosition (SymMatrix.scale (Vector.ofRat 1 1 1)) a.Position) :=
  ⟨demoCA_residues_have_CA,
    camera_points demoEnv (demoResidueModel [demoResidue (demoCA 1), demoResidue (demoCA 2)])
      (SymMatrix.scale (Vector.ofRat 1 1 1)) demoCA_residues_have_CA⟩

/-! ### SpaceFillingMesh -/

/-- The mesh built by the loop of `SpaceFillingMesh`: one sphere per atom named `CA`,
in list order, after what the mesh held. -/
theorem foldl_spaceFillingStep (E : Env) (atoms : List Atom) (mesh : Mesh E) :
    (atoms.foldl (spaceFillingStep E) mesh).Triangles =
      mesh.Triangles ++ (atoms.filter isCA).flatMap (fun a => (vdwSphere E a).Triangles) := by
  induction atoms generalizing mesh with
  | nil => simp
  | cons a as ih =>
    rw [List.foldl_cons, ih]
    by_cases hn : a.Name = "CA"
    · simp [spaceFillingStep, hn, isCA, vdwSphere, Mesh.Add, List.append_assoc]
    · simp [spaceFillingStep, hn, isCA]

/-- The spheres of a list of atoms have one unit sphere of triangles each. -/
theorem length_flatMap_vdwSphere (E : Env) (atoms : List Atom) :
    (atoms.flatMap (fun a => (vdwSphere E a).Triangles)).length =
      atoms.length * E.unitSphere.length := by
  induction atoms with
  | nil => simp
  | cons a as ih =>
    rw [List.flatMap_cons, List.length_append, ih, vdwSphere, length_atomSphere,
      List.length_cons, Nat.succ_mul, Nat.add_comm]

/-- C13. The triangles of `SpaceFillingMesh` are, for the atoms of `model.Atoms`
named `CA` in list order, one copy of the unit sphere each, transformed by
`Scale(V(r, r, r)).Translate(position)` with `r` the van der Waals radius of the
atom's element and coloured with the element's colour; their number is the number of
such atoms times the triangles of the unit sphere.  Nothing else is added: the mesh
does not depend on the heteroatoms or the connections of the model. -/
theorem spaceFillingMesh_spheres (E : Env) (model : Model E) :
    (SpaceFillingMesh E model).Triangles =
      (model.Atoms.filter isCA).flatMap (fun a => (vdwSphere E a).Triangles) ∧
    (∀ a : Atom, (vdwSphere E a).Triangles =
      E.unitSphere.map (fun t =>
        E.SetColorTriangle (E.HexColor (E.GetElement a).HexColor)
          (E.TransformTriangle
            (E.Translate
              (E.Scale (Vector.V (E.GetElement a).VanDerWaalsRadius
                (E.GetElement a).VanDerWaalsRadius (E.GetElement a).VanDerWaalsRadius))
              a.Position) t))) ∧
    (SpaceFillingMesh E model).Triangles.length =
      model.Atoms.countP isCA * E.unitSphere.length ∧
    (∀ (hetAtoms : List Atom) (connections : List Connection),
      SpaceFillingMesh E { model with HetAtoms := hetAtoms, Connections := connections } =
        SpaceFillingMesh E model) := by
  have ht : (SpaceFillingMesh E model).Triangles =
      (model.Atoms.filter isCA).flatMap (fun a => (vdwSphere E a).Triangles) := by
    unfold SpaceFillingMesh
    rw [foldl_spaceFillingStep]
    simp [Mesh.NewEmptyMesh]
  refine ⟨ht, ?_, ?_, ?_⟩
  · intro a
    simp [vdwSphere, atomSphere, Mesh.SetColor, Mesh.Transform, Mesh.Copy]
  · rw [ht, length_flatMap_vdwSphere, List.countP_eq_length_filter]
  · intro hetAtoms connections
    rfl

/-- In the concrete environment, the space-filling mesh of a `CA` atom, a nitrogen
and a second `CA` atom is the two grey spheres of the `CA` atoms, of radius 2. -/
theorem spaceFillingMesh_demo :
    (SpaceFillingMesh demoEnv
        { demoHetModel [demoO] [⟨10, 10⟩] with
          Atoms := [demoCA 1, demoN 2, demoCA 3] }).Triangles.map
        (fun t => (t.shape, t.placed, t.color)) =
      [(0, [SymMatrix.translate (SymMatrix.scale (Vector.V (.fin 2) (.fin 2) (.fin 2)))
          (Vector.ofRat 0 0 0)], some (SymColor.hex 0x808080)),
       (1, [SymMatrix.translate (SymMatrix.scale (Vector.V (.fin 2) (.fin 2) (.fin 2)))
          (Vector.ofRat 0 0 0)], some (SymColor.hex 0x808080)),
       (0, [SymMatrix.translate (SymMatrix.scale (Vector.V (.fin 2) (.fin 2) (.fin 2)))
          (Vector.ofRat 0 0 0)], some (SymColor.hex 0x808080)),
       (1, [SymMatrix.translate (SymMatrix.scale (Vector.V (.fin 2) (.fin 2) (.fin 2)))
          (Vector.ofRat 0 0 0)], some (SymColor.hex 0x808080))] := by
  rfl

/-! ### NewModel as constructed -/

/-- C15. The model returned by `NewModel` has no heteroatoms, no connections and no
matrices, and holds the atoms, helixes and strands it was given; so its `HetMesh`
has no triangles and its `Mesh` has exactly the triangles of its `RibbonMesh`. -/
theorem newModel_frame (E : Env) (atoms : List Atom) (helixes : List Helix)
    (strands : List Strand) :
    (NewModel E atoms helixes strands).HetAtoms = [] ∧
    (NewModel E atoms helixes strands).Connections = [] ∧
    (NewModel E atoms helixes strands).BioMatrixes = [] ∧
    (NewModel E atoms helixes strands).SymMatrixes = [] ∧
    (NewModel E atoms helixes strands).Atoms = atoms ∧
    (NewModel E atoms helixes strands).Helixes = helixes ∧
    (NewModel E atoms helixes strands).Strands = strands ∧
    (HetMesh E (NewModel E atoms helixes strands)).Triangles = [] ∧
    (Model.Mesh E (NewModel E atoms helixes strands)).Triangles =
      (RibbonMesh E (NewModel E atoms helixes strands)).Triangles := by
  have hh : (HetMesh E (NewModel E atoms helixes strands)).Triangles = [] := by
    rw [hetMesh_triangles]
    simp [NewModel]
  refine ⟨rfl, rfl, rfl, rfl, rfl, rfl, rfl, hh, ?_⟩
  rw [mesh_triangles, hh, List.append_nil]

/-! ### makeCylinder -/

/-- Reading a list at the indices `0, ..., k - 1` gives its first `k` elements. -/
theorem filterMap_range_getElem? {α : Type} (l : List α) (k : Nat) :
    (List.range k).filterMap (fun i => l[i]?) = l.take k := by
  induction k with
  | zero => simp
  | succ k ih =>
    rw [List.range_succ, List.filterMap_append, ih, List.take_succ]
    cases h : l[k]? <;> simp [h]

/-- Reading a store after the copies appended to it were transformed in place: the
addresses of the copies hold the transformed copies, every other address what it
held. -/
theorem getElem?_transformInStore_copies (E : Env) (matrix : E.Matrix)
    (store copies : List E.Triangle) (j : Nat) :
    (transformInStore E matrix (store ++ copies)
        ((List.range copies.length).map fun i => store.length + i))[j]? =
      if store.length ≤ j ∧ j < store.length + copies.length then
        (store ++ copies)[j]?.map (E.TransformTriangle matrix)
      else (store ++ copies)[j]? := by
  unfold transformInStore
  rw [List.foldl_map]
  exact getElem?_foldl_updateAt (E.TransformTriangle matrix) store.length copies.length
    (store ++ copies) j

/-- The function `makeCylinder` on a store: every triangle allocated before the call
is what it was, and the returned mesh points to the copies of the triangles of
`unitCylinder`, transformed by the matrix of `makeCylinder`. -/
theorem makeCylinderInStore_spec (E : Env) (store : List E.Triangle) (template : List Nat)
    (p0 p1 : Vector) (r : F64) :
    (∀ a : Nat, a < store.length →
      (makeCylinderInStore E store template p0 p1 r).1[a]? = store[a]?) ∧
    derefMesh E (makeCylinderInStore E store template p0 p1 r).1
        (makeCylinderInStore E store template p0 p1 r).2 =
      (derefMesh E store template).map
        (E.TransformTriangle
          (E.Orient (cylinderCentre p0 p1) (Vector.V r r (cylinderHeight E p0 p1))
            (cylinderAxis E p0 p1) (.fin 0))) := by
  simp only [makeCylinderInStore, copyInStore, derefMesh, cylinderCentre, cylinderHeight,
    cylinderAxis]
  generalize E.Orient ((p0.Add p1).MulScalar (.fin (1 / 2)))
    (Vector.V r r ((Vector.Distance E.Sqrt p0 p1).mul (.fin 2)))
    ((p1.Sub p0).Normalize E.Sqrt) (.fin 0) = matrix
  generalize (template.filterMap fun a => store[a]?) = copies
  constructor
  · intro a ha
    rw [getElem?_transformInStore_copies]
    have hlt : ¬ (store.length ≤ a ∧ a < store.length + copies.length) := by omega
    rw [if_neg hlt, List.getElem?_append_left ha]
  · rw [List.filterMap_map]
    have hcongr : ∀ i ∈ List.range copies.length,
        ((fun a => (transformInStore E matrix (store ++ copies)
            ((List.range copies.length).map fun i => store.length + i))[a]?) ∘
          fun i => store.length + i) i =
        (fun i => (copies[i]?).map (E.TransformTriangle matrix)) i := by
      intro i hi
      have hik : i < copies.length := List.mem_range.mp hi
      simp only [Function.comp]
      rw [getElem?_transformInStore_copies]
      have hin : store.length ≤ store.length + i ∧
          store.length + i < store.length + copies.length := by omega
      rw [if_pos hin, List.getElem?_append_right (by omega)]
      simp
    rw [List.filterMap_congr hcongr, ← List.map_filterMap, filterMap_range_getElem?,
      List.take_length]

/-- C14. For two distinct finite points `p0`, `p1` and a radius `r`, the triangles
of `makeCylinder(p0, p1, r)` are those of the unit cylinder, each transformed by
`Orient` at the centre `(p0 + p1) / 2`, with scale `(r, r, 2 d)`, along the axis
`(p1 - p0) / d` and with roll 0, where `d` is the computed distance
`Sqrt(|p1 - p0|^2)`; where that square root is exact, the axis has length 1 and the
height squared is `4 |p1 - p0|^2`.  On a store of triangles the call transforms
fresh copies only: every triangle allocated before the call, those of the
`unitCylinder` template among them, is what it was, and the returned mesh points to
the transformed copies. -/
theorem makeCylinder_placement (E : Env) (x0 y0 z0 x1 y1 z1 : ℚ) (r : F64)
    (hne : Vector.ofRat x0 y0 z0 ≠ Vector.ofRat x1 y1 z1)
    (hsqrt : ∀ q : ℚ, 0 < q → E.Sqrt q ≠ 0) :
    (makeCylinder E (Vector.ofRat x0 y0 z0) (Vector.ofRat x1 y1 z1) r).Triangles =
      E.unitCylinder.map (E.TransformTriangle
        (E.Orient
          (Vector.ofRat ((x0 + x1) * (1 / 2)) ((y0 + y1) * (1 / 2)) ((z0 + z1) * (1 / 2)))
          (Vector.V r r (.fin (computedDistance E x0 y0 z0 x1 y1 z1 * 2)))
          (Vector.ofRat
            ((x1 - x0) * (1 / computedDistance E x0 y0 z0 x1 y1 z1))
            ((y1 - y0) * (1 / computedDistance E x0 y0 z0 x1 y1 z1))
            ((z1 - z0) * (1 / computedDistance E x0 y0 z0 x1 y1 z1)))
          (.fin 0))) ∧
    (computedDistance E x0 y0 z0 x1 y1 z1 * computedDistance E x0 y0 z0 x1 y1 z1 =
        squaredDistance x0 y0 z0 x1 y1 z1 →
      (x1 - x0) * (1 / computedDistance E x0 y0 z0 x1 y1 z1) *
            ((x1 - x0) * (1 / computedDistance E x0 y0 z0 x1 y1 z1)) +
          (y1 - y0) * (1 / computedDistance E x0 y0 z0 x1 y1 z1) *
            ((y1 - y0) * (1 / computedDistance E x0 y0 z0 x1 y1 z1)) +
          (z1 - z0) * (1 / computedDistance E x0 y0 z0 x1 y1 z1) *
            ((z1 - z0) * (1 / computedDistance E x0 y0 z0 x1 y1 z1)) = 1 ∧
      computedDistance E x0 y0 z0 x1 y1 z1 * 2 * (computedDistance E x0 y0 z0 x1 y1 z1 * 2) =
        4 * squaredDistance x0 y0 z0 x1 y1 z1) ∧
    (∀ (store : List E.Triangle) (template : List Nat),
      (∀ a : Nat, a < store.length →
        (makeCylinderInStore E store template (Vector.ofRat x0 y0 z0)
          (Vector.ofRat x1 y1 z1) r).1[a]? = store[a]?) ∧
      (derefMesh E store template = E.unitCylinder →
        derefMesh E
            (makeCylinderInStore E store template (Vector.ofRat x0 y0 z0)
              (Vector.ofRat x1 y1 z1) r).1
            (makeCylinderInStore E store template (Vector.ofRat x0 y0 z0)
              (Vector.ofRat x1 y1 z1) r).2 =
          (makeCylinder E (Vector.ofRat x0 y0 z0) (Vector.ofRat x1 y1 z1) r).Triangles)) := by
  have hS : 0 < squaredDistance x0 y0 z0 x1 y1 z1 := sqDist_pos x0 y0 z0 x1 y1 z1 hne
  have hσ : computedDistance E x0 y0 z0 x1 y1 z1 ≠ 0 := hsqrt _ hS
  have hS' : (x0 - x1) * (x0 - x1) + (y0 - y1) * (y0 - y1) + (z0 - z1) * (z0 - z1) =
      squaredDistance x0 y0 z0 x1 y1 z1 := by
    unfold squaredDistance
    ring
  have hvalue :
      (makeCylinder E (Vector.ofRat x0 y0 z0) (Vector.ofRat x1 y1 z1) r).Triangles =
        E.unitCylinder.map (E.TransformTriangle
          (E.Orient (cylinderCentre (Vector.ofRat x0 y0 z0) (Vector.ofRat x1 y1 z1))
            (Vector.V r r (cylinderHeight E (Vector.ofRat x0 y0 z0) (Vector.ofRat x1 y1 z1)))
            (cylinderAxis E (Vector.ofRat x0 y0 z0) (Vector.ofRat x1 y1 z1)) (.fin 0))) := by
    rw [makeCylinder_eq]
    rfl
  have hcentre : cylinderCentre (Vector.ofRat x0 y0 z0) (Vector.ofRat x1 y1 z1) =
      Vector.ofRat ((x0 + x1) * (1 / 2)) ((y0 + y1) * (1 / 2)) ((z0 + z1) * (1 / 2)) := by
    rw [cylinderCentre, Vector.Add_ofRat, Vector.MulScalar_ofRat]
  have hheight : cylinderHeight E (Vector.ofRat x0 y0 z0) (Vector.ofRat x1 y1 z1) =
      .fin (computedDistance E x0 y0 z0 x1 y1 z1 * 2) := by
    rw [cylinderHeight, Vector.Distance_ofRat, hS', F64.mul_fin]
    rfl
  have haxis : cylinderAxis E (Vector.ofRat x0 y0 z0) (Vector.ofRat x1 y1 z1) =
      Vector.ofRat
        ((x1 - x0) * (1 / computedDistance E x0 y0 z0 x1 y1 z1))
        ((y1 - y0) * (1 / computedDistance E x0 y0 z0 x1 y1 z1))
        ((z1 - z0) * (1 / computedDistance E x0 y0 z0 x1 y1 z1)) := by
    rw [cylinderAxis, Vector.Sub_ofRat, Vector.Normalize_ofRat E.Sqrt _ _ _ hσ]
    rfl
  refine ⟨?_, ?_, ?_⟩
  · rw [hvalue, hcentre, hheight, haxis]
  · intro hexact
    generalize computedDistance E x0 y0 z0 x1 y1 z1 = σ at hσ hexact ⊢
    constructor
    · have h1 : (x1 - x0) * (1 / σ) * ((x1 - x0) * (1 / σ)) +
          (y1 - y0) * (1 / σ) * ((y1 - y0) * (1 / σ)) +
          (z1 - z0) * (1 / σ) * ((z1 - z0) * (1 / σ)) =
          squaredDistance x0 y0 z0 x1 y1 z1 / (σ * σ) := by
        unfold squaredDistance
        field_simp
      rw [h1, hexact]
      exact div_self hS.ne'
    · rw [← hexact]
      ring
  · intro store template
    have hspec := makeCylinderInStore_spec E store template (Vector.ofRat x0 y0 z0)
      (Vector.ofRat x1 y1 z1) r
    refine ⟨hspec.1, ?_⟩
    intro htemplate
    rw [hspec.2, htemplate, hvalue]

/-- Witness of C14: the cylinder from the origin to (4, 0, 0) of radius 0.25. -/
theorem makeCylinder_placement_witness :
    (Vector.ofRat 0 0 0 ≠ Vector.ofRat 4 0 0 ∧ ∀ q : ℚ, 0 < q → demoEnv.Sqrt q ≠ 0) ∧
    (makeCylinder demoEnv (Vector.ofRat 0 0 0) (Vector.ofRat 4 0 0) (.fin (1 / 4))).Triangles =
      demoEnv.unitCylinder.map (demoEnv.TransformTriangle
        (demoEnv.Orient
          (Vector.ofRat ((0 + 4) * (1 / 2)) ((0 + 0) * (1 / 2)) ((0 + 0) * (1 / 2)))
          (Vector.V (.fin (1 / 4)) (.fin (1 / 4))
            (.fin (computedDistance demoEnv 0 0 0 4 0 0 * 2)))
          (Vector.ofRat
            ((4 - 0) * (1 / computedDistance demoEnv 0 0 0 4 0 0))
            ((0 - 0) * (1 / computedDistance demoEnv 0 0 0 4 0 0))
            ((0 - 0) * (1 / computedDistance demoEnv 0 0 0 4 0 0)))
          (.fin 0))) :=
  ⟨⟨by decide, exactSqrt_ne_zero⟩,
    (makeCylinder_placement demoEnv 0 0 0 4 0 0 (.fin (1 / 4)) (by decide)
      exactSqrt_ne_zero).1⟩

/-- In the concrete environment the computed distance from the origin to (4, 0, 0)
is 4, so the cylinder between them has centre (2, 0, 0), height 8 and axis
(1, 0, 0). -/
theorem makeCylinder_demo :
    computedDistance demoEnv 0 0 0 4 0 0 = 4 ∧
    cylinderCentre (Vector.ofRat 0 0 0) (Vector.ofRat 4 0 0) = Vector.ofRat 2 0 0 ∧
    cylinderHeight demoEnv (Vector.ofRat 0 0 0) (Vector.ofRat 4 0 0) = .fin 8 ∧
    cylinderAxis demoEnv (Vector.ofRat 0 0 0) (Vector.ofRat 4 0 0) = Vector.ofRat 1 0 0 := by
  have hd : computedDistance demoEnv 0 0 0 4 0 0 = 4 := by
    have h16 : squaredDistance 0 0 0 4 0 0 = 16 := by
      unfold squaredDistance
      norm_num
    unfold computedDistance
    rw [h16]
    exact exactSqrt_sixteen
  have h16' : ((0 : ℚ) - 4) * (0 - 4) + (0 - 0) * (0 - 0) + (0 - 0) * (0 - 0) = 16 := by
    norm_num
  have h16'' : ((4 : ℚ) - 0) * (4 - 0) + (0 - 0) * (0 - 0) + (0 - 0) * (0 - 0) = 16 := by
    norm_num
  have hq : demoEnv.Sqrt 16 = 4 := exactSqrt_sixteen
  refine ⟨hd, ?_, ?_, ?_⟩
  · rw [cylinderCentre, Vector.Add_ofRat, Vector.MulScalar_ofRat, Vector.ofRat_inj]
    norm_num
  · rw [cylinderHeight, Vector.Distance_ofRat, h16', hq, F64.mul_fin]
    norm_num
  · rw [cylinderAxis, Vector.Sub_ofRat,
      Vector.Normalize_ofRat demoEnv.Sqrt _ _ _ (by rw [h16'', hq]; norm_num), h16'', hq,
      Vector.ofRat_inj]
    norm_num

/-- In the concrete environment, on a store holding the three triangles of the unit
cylinder at the addresses 0, 1, 2, `makeCylinder` returns the mesh of the fresh
addresses 3, 4, 5 and leaves the triangles at 0, 1, 2 as they were, while the
triangle at address 3 has been transformed once. -/
theorem makeCylinderInStore_demo :
    (makeCylinderInStore demoEnv demoEnv.unitCylinder [0, 1, 2] (Vector.ofRat 0 0 0)
      (Vector.ofRat 4 0 0) (.fin (1 / 4))).2 = [3, 4, 5] ∧
    (makeCylinderInStore demoEnv demoEnv.unitCylinder [0, 1, 2] (Vector.ofRat 0 0 0)
      (Vector.ofRat 4 0 0) (.fin (1 / 4))).1.take 3 = demoEnv.unitCylinder ∧
    ((makeCylinderInStore demoEnv demoEnv.unitCylinder [0, 1, 2] (Vector.ofRat 0 0 0)
      (Vector.ofRat 4 0 0) (.fin (1 / 4))).1.map fun t => (t.shape, t.placed.length)) =
      [(2, 0), (3, 0), (4, 0), (2, 1), (3, 1), (4, 1)] :=
  ⟨rfl, rfl, rfl⟩

end Ribbon
